import Mathlib

/-!
# Verification of `GridFinder::analyze` (FlatnessScan)

A shallow embedding of `src/GridFinder.h` over exact rational arithmetic.
`double` is modelled by `ℚ`; `std::round` (nearest, halfway away from zero) by
`roundQ`; `std::sort` by `List.insertionSort (· ≤ ·)` (extensionally the unique
sorted permutation); division by zero yields `0` in `ℚ` (IEEE doubles would
produce NaN there — the code paths where this matters are analysed explicitly).
-/

namespace GridFinder

/-- Consecutive differences `v[i+1] - v[i]` of a list, as built by the loops
`for i in 1..size: d.push_back(v[i] - v[i-1])` in `estimateMeanStep` and
`spacingStats`. -/
def diffs : List ℚ → List ℚ
  | a :: b :: rest => (b - a) :: diffs (b :: rest)
  | _ => []

/-- `*std::min_element` on a nonempty list (0 on the empty list, never used there). -/
def listMin : List ℚ → ℚ
  | [] => 0
  | a :: t => t.foldl min a

/-- `*std::max_element` on a nonempty list (0 on the empty list, never used there). -/
def listMax : List ℚ → ℚ
  | [] => 0
  | a :: t => t.foldl max a

/-- The lambda `estimateMeanStep` of `analyze`: 0 for fewer than two values,
otherwise the mean of consecutive differences of the (sorted) list. -/
def estimateMeanStep (v : List ℚ) : ℚ :=
  if v.length < 2 then 0 else (diffs v).sum / (diffs v).length

/-- The loop of the lambda `mergeClose`: walk the values, keeping `val`
whenever `|val - merged.back()| > eps`; `last` is the last kept value. -/
def mergeAux (eps : ℚ) : ℚ → List ℚ → List ℚ
  | _, [] => []
  | last, val :: rest =>
    if |val - last| > eps then val :: mergeAux eps val rest
    else mergeAux eps last rest

/-- The lambda `mergeClose` of `analyze`: push `v[0]`, then walk the whole of
`v` (including `v[0]` again) with threshold `eps = |step| * mergeStepFraction`. -/
def mergeClose (mergeStepFraction : ℚ) (v : List ℚ) (step : ℚ) : List ℚ :=
  match v with
  | [] => []
  | v0 :: _ => v0 :: mergeAux (|step| * mergeStepFraction) v0 v

/-- First component of the lambda `spacingStats`: mean of consecutive gaps. -/
def spacingMean (v : List ℚ) : ℚ := (diffs v).sum / (diffs v).length

/-- Second component of the lambda `spacingStats`: mean absolute deviation of
the consecutive gaps from their mean. -/
def spacingSpread (v : List ℚ) : ℚ :=
  ((diffs v).map (fun di => |di - spacingMean v|)).sum / (diffs v).length

/-- The inner presence test of the missing-point scan: some sample lies within
`eps` of `x` in the first coordinate and within `eps` of `y` in the second. -/
def foundNear (points : List (ℚ × ℚ)) (x y eps : ℚ) : Bool :=
  points.any fun p => decide (|p.1 - x| < eps) && decide (|p.2 - y| < eps)

/-- The double loop of the missing-point scan: for each merged `x` and each
merged `y`, count the intersections for which no sample is near. -/
def countMissing (points : List (ℚ × ℚ)) (xs ys : List ℚ) (eps : ℚ) : ℕ :=
  (xs.map fun x => (ys.filter fun y => !foundNear points x y eps).length).sum

/-- `std::round`: nearest integer, halfway cases rounded away from zero. -/
def roundQ (q : ℚ) : ℤ :=
  if 0 ≤ q then ⌊q + 1/2⌋ else ⌈q - 1/2⌉

/-- `std::sort` on rationals: the sorted permutation of the input. -/
def sortQ (l : List ℚ) : List ℚ := l.insertionSort (· ≤ ·)

/-- The sorted X coordinates `xs` of `analyze`, before merging. -/
def xsSorted (points : List (ℚ × ℚ)) : List ℚ := sortQ (points.map Prod.fst)

/-- The sorted Y coordinates `ys` of `analyze`, before merging. -/
def ysSorted (points : List (ℚ × ℚ)) : List ℚ := sortQ (points.map Prod.snd)

/-- The merged X axis sequence of `analyze` (line 141 of `GridFinder.h`). -/
def xsMerged (points : List (ℚ × ℚ)) (mergeStepFraction : ℚ) : List ℚ :=
  mergeClose mergeStepFraction (xsSorted points) (estimateMeanStep (xsSorted points))

/-- The merged Y axis sequence of `analyze` (line 142 of `GridFinder.h`). -/
def ysMerged (points : List (ℚ × ℚ)) (mergeStepFraction : ℚ) : List ℚ :=
  mergeClose mergeStepFraction (ysSorted points) (estimateMeanStep (ysSorted points))

/-- `GridFinder::Result` with its default member initialisers. -/
structure Result where
  regularX : Bool := false
  regularY : Bool := false
  dx : ℚ := 0
  dy : ℚ := 0
  Nx : ℤ := 0
  Ny : ℤ := 0
  xMin : ℚ := 0
  xMax : ℚ := 0
  yMin : ℚ := 0
  yMax : ℚ := 0
  missingPoints : ℕ := 0
  deriving DecidableEq

/-- `GridFinder::analyze`.  The final field values of the returned `Result`
are assembled directly: the C++ code writes `Nx`, `Ny` at lines 144-145 and
overwrites them at lines 190-191 on the non-degenerate path, so only the
degenerate-merge branch exposes the raw merged counts. -/
def analyze (points : List (ℚ × ℚ))
    (toleranceFraction presenceEpsilonFraction mergeStepFraction : ℚ) : Result :=
  if points.length < 4 then {} else
  let xs := xsMerged points mergeStepFraction
  let ys := ysMerged points mergeStepFraction
  if xs.length < 2 ∨ ys.length < 2 then { Nx := xs.length, Ny := ys.length } else
  let dx := spacingMean xs
  let dy := spacingMean ys
  { regularX := decide (spacingSpread xs / dx < toleranceFraction)
    regularY := decide (spacingSpread ys / dy < toleranceFraction)
    dx := dx
    dy := dy
    Nx := roundQ ((listMax xs - listMin xs) / dx) + 1
    Ny := roundQ ((listMax ys - listMin ys) / dy) + 1
    xMin := listMin xs
    xMax := listMax xs
    yMin := listMin ys
    yMax := listMax ys
    missingPoints := countMissing points xs ys (min dx dy * presenceEpsilonFraction) }

/-! ### Specification-side definitions

These re-state, in the spec's own words, the quantities `analyze` is claimed
to compute; the claim theorems compare them with the embedding above. -/

/-- The spec's "consecutive steps" of a sorted axis: `v[i+1] - v[i]`, phrased
independently of the implementation's loop. -/
def gapList (v : List ℚ) : List ℚ := List.zipWith (fun b a => b - a) v.tail v

/-- The spec's "mean step" of an axis. -/
def specMeanGap (v : List ℚ) : ℚ := (gapList v).sum / (gapList v).length

/-- The spec's "spread": mean absolute deviation of consecutive steps from the
mean step. -/
def specGapSpread (v : List ℚ) : ℚ :=
  ((gapList v).map (fun d => |d - specMeanGap v|)).sum / (gapList v).length

/-- The spec's grid of candidate intersections: every combination of a merged
X value and a merged Y value. -/
def gridPairs (xs ys : List ℚ) : List (ℚ × ℚ) :=
  xs.flatMap fun x => ys.map fun y => (x, y)

/-- The spec's missing-point count: candidate intersections for which no
sample of the full original set is within `eps` of both coordinates
(independent per-axis proximity). -/
def specMissing (points : List (ℚ × ℚ)) (xs ys : List ℚ) (eps : ℚ) : ℕ :=
  ((gridPairs xs ys).filter fun q =>
    decide (¬ ∃ p ∈ points, |p.1 - q.1| < eps ∧ |p.2 - q.2| < eps)).length

/-! ### Lattice inputs -/

/-- A grid of samples with axis line positions `X i` and `Y j`:
one sample at every intersection, row-major. -/
def linesGrid (X Y : ℕ → ℚ) (Nx Ny : ℕ) : List (ℚ × ℚ) :=
  (List.range Nx).flatMap fun i => (List.range Ny).map fun j => (X i, Y j)

/-- A perfect `Nx × Ny` rectangular lattice with origin `(x0, y0)` and
constant steps `dx`, `dy`: one sample at every intersection. -/
def latticePoints (Nx Ny : ℕ) (x0 y0 dx dy : ℚ) : List (ℚ × ℚ) :=
  linesGrid (fun i => x0 + i * dx) (fun j => y0 + j * dy) Nx Ny

/-- `n` blocks of `k` repeated values `f 0, …, f (n-1)`: the sorted coordinate
multiset of a `linesGrid` along one axis. -/
def blockList (f : ℕ → ℚ) (n k : ℕ) : List ℚ :=
  (List.range n).flatMap fun i => List.replicate k (f i)

/-! ### Concrete inputs used by witnesses and counterexamples -/

/-- A perfect 2×2 unit lattice. -/
def exGrid22 : List (ℚ × ℚ) := [(0, 0), (0, 1), (1, 0), (1, 1)]

/-- Four samples sharing one X value: the X axis collapses under merging. -/
def exDegX : List (ℚ × ℚ) := [(0, 0), (0, 1), (0, 2), (0, 3)]

/-- A perfect 3×2 unit lattice. -/
def exBase32 : List (ℚ × ℚ) := latticePoints 3 2 0 0 1 1

/-- `exBase32` with every X coordinate moved by `±49/1000 < 1/20`
(under half the merge tolerance `mergeStepFraction × step = 1/10`). -/
def exPert32 : List (ℚ × ℚ) :=
  [(-49/1000, 0), (-49/1000, 1), (1049/1000, 0), (1049/1000, 1),
   (1951/1000, 0), (1951/1000, 1)]

/-- Checks that `exPert32` moves each coordinate of `exBase32` by strictly
less than `mergeStepFraction * step / 2 = 1/20`. -/
def pertWithinHalfMergeTol : Bool :=
  ((exPert32.zip exBase32).all fun pr =>
    decide (|pr.1.1 - pr.2.1| < 1/20) && decide (|pr.1.2 - pr.2.2| < 1/20)) &&
  decide (exPert32.length = exBase32.length)

end GridFinder

namespace GridFinder

/-! ### Basic facts about `diffs` -/

theorem diffs_length (a : ℚ) (l : List ℚ) : (diffs (a :: l)).length = l.length := by
  induction l generalizing a with
  | nil => rfl
  | cons b t ih => simpa [diffs] using ih b

theorem diffs_sum (a : ℚ) (l : List ℚ) : (diffs (a :: l)).sum = l.getLastD a - a := by
  induction l generalizing a with
  | nil => simp [diffs]
  | cons b t ih =>
    rw [show diffs (a :: b :: t) = (b - a) :: diffs (b :: t) from rfl, List.sum_cons, ih b,
      List.getLastD_cons]
    ring

theorem diffs_eq_gapList (v : List ℚ) : diffs v = gapList v := by
  match v with
  | [] => rfl
  | [a] => rfl
  | a :: b :: rest =>
    have ih := diffs_eq_gapList (b :: rest)
    simp only [diffs, gapList, List.tail_cons, List.zipWith_cons_cons] at *
    exact congrArg _ ih

/-! ### `listMin` and `listMax` -/

theorem foldl_min_mem (t : List ℚ) (a : ℚ) : t.foldl min a = a ∨ t.foldl min a ∈ t := by
  induction t generalizing a with
  | nil => left; rfl
  | cons b t ih =>
    rcases ih (min a b) with h | h
    · rcases min_choice a b with hm | hm
      · left; rw [List.foldl_cons, h, hm]
      · right; rw [List.foldl_cons, h, hm]; exact List.mem_cons_self _ _
    · right; exact List.mem_cons_of_mem _ h

theorem foldl_min_le_init (t : List ℚ) (a : ℚ) : t.foldl min a ≤ a := by
  induction t generalizing a with
  | nil => exact le_refl a
  | cons b t ih => exact le_trans (ih (min a b)) (min_le_left a b)

theorem foldl_min_le (t : List ℚ) (a : ℚ) (x : ℚ) (hx : x ∈ t) : t.foldl min a ≤ x := by
  induction t generalizing a with
  | nil => cases hx
  | cons b t ih =>
    rcases List.mem_cons.1 hx with rfl | hx
    · exact le_trans (foldl_min_le_init t (min a x)) (min_le_right a x)
    · exact ih (min a b) hx

theorem listMin_mem (v : List ℚ) (hv : v ≠ []) : listMin v ∈ v := by
  match v with
  | a :: t =>
    rcases foldl_min_mem t a with h | h
    · rw [listMin, h]; exact List.mem_cons_self _ _
    · exact List.mem_cons_of_mem _ (by rw [listMin]; exact h)

theorem listMin_le (v : List ℚ) (x : ℚ) (hx : x ∈ v) : listMin v ≤ x := by
  match v with
  | a :: t =>
    rcases List.mem_cons.1 hx with rfl | hx
    · exact foldl_min_le_init t x
    · exact foldl_min_le t a x hx

theorem foldl_max_mem (t : List ℚ) (a : ℚ) : t.foldl max a = a ∨ t.foldl max a ∈ t := by
  induction t generalizing a with
  | nil => left; rfl
  | cons b t ih =>
    rcases ih (max a b) with h | h
    · rcases max_choice a b with hm | hm
      · left; rw [List.foldl_cons, h, hm]
      · right; rw [List.foldl_cons, h, hm]; exact List.mem_cons_self _ _
    · right; exact List.mem_cons_of_mem _ h

theorem le_foldl_max_init (t : List ℚ) (a : ℚ) : a ≤ t.foldl max a := by
  induction t generalizing a with
  | nil => exact le_refl a
  | cons b t ih => exact le_trans (le_max_left a b) (ih (max a b))

theorem le_foldl_max (t : List ℚ) (a : ℚ) (x : ℚ) (hx : x ∈ t) : x ≤ t.foldl max a := by
  induction t generalizing a with
  | nil => cases hx
  | cons b t ih =>
    rcases List.mem_cons.1 hx with rfl | hx
    · exact le_trans (le_max_right a x) (le_foldl_max_init t (max a x))
    · exact ih (max a b) hx

theorem listMax_mem (v : List ℚ) (hv : v ≠ []) : listMax v ∈ v := by
  match v with
  | a :: t =>
    rcases foldl_max_mem t a with h | h
    · rw [listMax, h]; exact List.mem_cons_self _ _
    · exact List.mem_cons_of_mem _ (by rw [listMax]; exact h)

theorem le_listMax (v : List ℚ) (x : ℚ) (hx : x ∈ v) : x ≤ listMax v := by
  match v with
  | a :: t =>
    rcases List.mem_cons.1 hx with rfl | hx
    · exact le_foldl_max_init t x
    · exact le_foldl_max t a x hx

theorem listMin_eq_of (v : List ℚ) (c : ℚ) (hc : c ∈ v) (hle : ∀ x ∈ v, c ≤ x) :
    listMin v = c :=
  le_antisymm (listMin_le v c hc)
    (hle _ (listMin_mem v (by rintro rfl; cases hc)))

theorem listMax_eq_of (v : List ℚ) (c : ℚ) (hc : c ∈ v) (hle : ∀ x ∈ v, x ≤ c) :
    listMax v = c :=
  le_antisymm (hle _ (listMax_mem v (by rintro rfl; cases hc)))
    (le_listMax v c hc)

end GridFinder

namespace GridFinder

/-! ### Structure of the merge step -/

theorem mergeAux_sublist (eps : ℚ) (last : ℚ) (v : List ℚ) :
    (mergeAux eps last v).Sublist v := by
  induction v generalizing last with
  | nil => simp [mergeAux]
  | cons val rest ih =>
    rw [mergeAux]
    by_cases h : |val - last| > eps
    · rw [if_pos h]; exact (ih val).cons₂ val
    · rw [if_neg h]; exact (ih last).cons val

theorem mergeAux_chain (eps : ℚ) (v : List ℚ) (last : ℚ)
    (hs : v.Sorted (· ≤ ·)) (hle : ∀ x ∈ v, last ≤ x) :
    List.Chain (fun a b => eps < b - a) last (mergeAux eps last v) := by
  induction v generalizing last with
  | nil => exact List.Chain.nil
  | cons val rest ih =>
    have hlv : last ≤ val := hle val (List.mem_cons_self _ _)
    have hrest : rest.Sorted (· ≤ ·) := hs.of_cons
    rw [mergeAux]
    by_cases h : |val - last| > eps
    · rw [if_pos h]
      have habs : |val - last| = val - last := abs_of_nonneg (by linarith)
      refine List.Chain.cons (by rw [habs] at h; exact h) ?_
      exact ih val hrest (fun x hx => (List.rel_of_sorted_cons hs) x hx)
    · rw [if_neg h]
      refine ih last hrest (fun x hx => le_trans hlv ((List.rel_of_sorted_cons hs) x hx))

theorem mergeAux_all (eps : ℚ) (heps : eps < 0) (last : ℚ) (v : List ℚ) :
    mergeAux eps last v = v := by
  induction v generalizing last with
  | nil => rfl
  | cons val rest ih =>
    rw [mergeAux, if_pos (lt_of_lt_of_le heps (abs_nonneg _)), ih]

theorem mergeAux_skip (eps : ℚ) (heps : 0 ≤ eps) (a : ℚ) (n : ℕ) (rest : List ℚ) :
    mergeAux eps a (List.replicate n a ++ rest) = mergeAux eps a rest := by
  induction n with
  | zero => rfl
  | succ n ih =>
    rw [List.replicate_succ, List.cons_append, mergeAux,
      if_neg (by simp; linarith), ih]

theorem mergeClose_eq_cons (msf : ℚ) (v0 : ℚ) (t : List ℚ) (step : ℚ) :
    mergeClose msf (v0 :: t) step = v0 :: mergeAux (|step| * msf) v0 (v0 :: t) := rfl

theorem mergeClose_sorted (msf : ℚ) (v : List ℚ) (step : ℚ) (hs : v.Sorted (· ≤ ·)) :
    (mergeClose msf v step).Sorted (· ≤ ·) := by
  match v with
  | [] => exact List.sorted_nil
  | v0 :: t =>
    rw [mergeClose_eq_cons]
    have hsub : (mergeAux (|step| * msf) v0 (v0 :: t)).Sublist (v0 :: t) :=
      mergeAux_sublist _ _ _
    refine List.Pairwise.cons ?_ (hs.sublist hsub)
    intro x hx
    have hxv : x ∈ v0 :: t := hsub.mem hx
    rcases List.mem_cons.1 hxv with rfl | hxt
    · exact le_refl x
    · exact List.rel_of_sorted_cons hs x hxt

theorem mergeClose_chain (msf : ℚ) (v0 : ℚ) (t : List ℚ) (step : ℚ)
    (hs : (v0 :: t).Sorted (· ≤ ·)) :
    (mergeClose msf (v0 :: t) step).Chain' (fun a b => |step| * msf < b - a) := by
  rw [mergeClose_eq_cons]
  exact mergeAux_chain _ _ _ hs (by
    intro x hx
    rcases List.mem_cons.1 hx with rfl | hxt
    · exact le_refl x
    · exact List.rel_of_sorted_cons hs x hxt)

theorem mergeClose_sorted_lt (msf : ℚ) (v : List ℚ) (step : ℚ)
    (hs : v.Sorted (· ≤ ·)) (heps : 0 ≤ |step| * msf) :
    (mergeClose msf v step).Sorted (· < ·) := by
  match v with
  | [] => exact List.sorted_nil
  | v0 :: t =>
    have hch := mergeClose_chain msf v0 t step hs
    have hch' : (mergeClose msf (v0 :: t) step).Chain' (· < ·) :=
      List.Chain'.imp (fun a b h => by linarith) hch
    exact List.chain'_iff_pairwise.mp hch'

theorem sorted_head_le_getLastD (a : ℚ) (t : List ℚ) (hs : (a :: t).Sorted (· ≤ ·)) :
    a ≤ t.getLastD a := by
  induction t generalizing a with
  | nil => exact le_refl a
  | cons b t ih =>
    rw [List.getLastD_cons]
    exact le_trans (List.rel_of_sorted_cons hs b (List.mem_cons_self _ _)) (ih b hs.of_cons)

theorem listMin_sorted (a : ℚ) (t : List ℚ) (hs : (a :: t).Sorted (· ≤ ·)) :
    listMin (a :: t) = a :=
  listMin_eq_of _ a (List.mem_cons_self _ _) (by
    intro x hx
    rcases List.mem_cons.1 hx with rfl | hxt
    · exact le_refl x
    · exact List.rel_of_sorted_cons hs x hxt)

theorem listMax_sorted (a : ℚ) (t : List ℚ) (hs : (a :: t).Sorted (· ≤ ·)) :
    listMax (a :: t) = t.getLastD a := by
  induction t generalizing a with
  | nil => simp [listMax]
  | cons b t ih =>
    have hab : a ≤ b := List.rel_of_sorted_cons hs b (List.mem_cons_self _ _)
    have h1 : listMax (a :: b :: t) = listMax (b :: t) := by
      show (b :: t).foldl max a = t.foldl max b
      rw [List.foldl_cons, max_eq_right hab]
    rw [h1, List.getLastD_cons, ih b hs.of_cons]

end GridFinder

namespace GridFinder

/-! ### Telescoping and the count-reconciliation identity -/

theorem xsSorted_sorted (points : List (ℚ × ℚ)) : (xsSorted points).Sorted (· ≤ ·) :=
  List.sorted_insertionSort _ _

theorem ysSorted_sorted (points : List (ℚ × ℚ)) : (ysSorted points).Sorted (· ≤ ·) :=
  List.sorted_insertionSort _ _

theorem spacingMean_telescope (a : ℚ) (t : List ℚ) :
    spacingMean (a :: t) = (t.getLastD a - a) / (t.length : ℚ) := by
  rw [spacingMean, diffs_sum, diffs_length]

theorem estimateMeanStep_eq_spacingMean (v : List ℚ) (h : 2 ≤ v.length) :
    estimateMeanStep v = spacingMean v := by
  rw [estimateMeanStep, if_neg (by omega), spacingMean]

theorem spacingMean_minmax (a : ℚ) (t : List ℚ) (hs : (a :: t).Sorted (· ≤ ·)) :
    spacingMean (a :: t) =
      (listMax (a :: t) - listMin (a :: t)) / (((a :: t).length : ℚ) - 1) := by
  rw [spacingMean_telescope, listMax_sorted a t hs, listMin_sorted a t hs]
  congr 1
  push_cast [List.length_cons]
  ring

theorem merged_min_lt_max (v : List ℚ) (msf : ℚ) (hs : v.Sorted (· ≤ ·))
    (hlen : 2 ≤ (mergeClose msf v (estimateMeanStep v)).length) :
    listMin (mergeClose msf v (estimateMeanStep v)) <
      listMax (mergeClose msf v (estimateMeanStep v)) := by
  rcases le_or_lt 0 (|estimateMeanStep v| * msf) with heps | heps
  · have hslt := mergeClose_sorted_lt msf v (estimateMeanStep v) hs heps
    have hsle := hslt.le_of_lt
    match hm : mergeClose msf v (estimateMeanStep v), hlen with
    | m0 :: m1 :: r, _ =>
      rw [hm] at hslt hsle
      rw [listMin_sorted _ _ hsle, listMax_sorted _ _ hsle, List.getLastD_cons]
      have h01 : m0 < m1 := List.rel_of_sorted_cons hslt m1 (List.mem_cons_self _ _)
      exact lt_of_lt_of_le h01 (sorted_head_le_getLastD m1 r hsle.of_cons)
  · have hstep : estimateMeanStep v ≠ 0 := by
      intro h0
      rw [h0, abs_zero, zero_mul] at heps
      exact absurd heps (lt_irrefl 0)
    have hvlen : 2 ≤ v.length := by
      by_contra h
      exact hstep (by rw [estimateMeanStep, if_pos (by omega)])
    match v, hvlen, hs with
    | a :: b :: t, _, hs =>
      have hsum : ((b :: t).getLastD a - a) ≠ 0 := by
        intro h0
        apply hstep
        rw [estimateMeanStep, if_neg (by simp), diffs_sum, h0, zero_div]
      have hlast : a < (b :: t).getLastD a :=
        lt_of_le_of_ne (sorted_head_le_getLastD a (b :: t) hs) (by
          intro h; exact hsum (by rw [← h]; ring))
      rw [mergeClose_eq_cons, mergeAux_all _ heps]
      have hs2 : (a :: a :: b :: t).Sorted (· ≤ ·) := by
        refine List.Pairwise.cons ?_ hs
        intro x hx
        rcases List.mem_cons.1 hx with rfl | hxt
        · exact le_refl x
        · exact List.rel_of_sorted_cons hs x hxt
      rw [listMin_sorted _ _ hs2, listMax_sorted _ _ hs2, List.getLastD_cons]
      exact hlast

theorem roundQ_natCast (n : ℕ) : roundQ (n : ℚ) = (n : ℤ) := by
  rw [roundQ, if_pos (by positivity)]
  refine Int.floor_eq_iff.mpr ⟨?_, ?_⟩ <;> push_cast <;> linarith

theorem reconcile_roundQ (mn mx d : ℚ) (n : ℕ) (h : mn < mx) (hn : 2 ≤ n)
    (hd : d = (mx - mn) / ((n : ℚ) - 1)) : roundQ ((mx - mn) / d) + 1 = (n : ℤ) := by
  have hn1 : ((n : ℚ) - 1) ≠ 0 := by
    have : (2 : ℚ) ≤ (n : ℚ) := by exact_mod_cast hn
    linarith
  have hmx : mx - mn ≠ 0 := by linarith
  have hdiv : (mx - mn) / d = (n : ℚ) - 1 := by
    rw [hd]
    field_simp
  have hcast : (n : ℚ) - 1 = ((n - 1 : ℕ) : ℚ) := by
    have : 1 ≤ n := by omega
    push_cast [this]
    ring
  rw [hdiv, hcast, roundQ_natCast]
  have : 1 ≤ n := by omega
  push_cast [this]
  ring

/-! ### The three branches of `analyze` -/

theorem analyze_lt4 (points : List (ℚ × ℚ)) (tol pef msf : ℚ)
    (h : points.length < 4) : analyze points tol pef msf = {} := by
  rw [analyze, if_pos h]

theorem analyze_degen (points : List (ℚ × ℚ)) (tol pef msf : ℚ)
    (h4 : ¬ points.length < 4)
    (hd : (xsMerged points msf).length < 2 ∨ (ysMerged points msf).length < 2) :
    analyze points tol pef msf =
      { Nx := ((xsMerged points msf).length : ℤ), Ny := ((ysMerged points msf).length : ℤ) } := by
  rw [analyze, if_neg h4]
  simp only [if_pos hd]

theorem analyze_main (points : List (ℚ × ℚ)) (tol pef msf : ℚ)
    (h4 : ¬ points.length < 4)
    (hx : ¬ (xsMerged points msf).length < 2) (hy : ¬ (ysMerged points msf).length < 2) :
    analyze points tol pef msf =
      { regularX := decide (spacingSpread (xsMerged points msf) /
          spacingMean (xsMerged points msf) < tol)
        regularY := decide (spacingSpread (ysMerged points msf) /
          spacingMean (ysMerged points msf) < tol)
        dx := spacingMean (xsMerged points msf)
        dy := spacingMean (ysMerged points msf)
        Nx := roundQ ((listMax (xsMerged points msf) - listMin (xsMerged points msf)) /
          spacingMean (xsMerged points msf)) + 1
        Ny := roundQ ((listMax (ysMerged points msf) - listMin (ysMerged points msf)) /
          spacingMean (ysMerged points msf)) + 1
        xMin := listMin (xsMerged points msf)
        xMax := listMax (xsMerged points msf)
        yMin := listMin (ysMerged points msf)
        yMax := listMax (ysMerged points msf)
        missingPoints := countMissing points (xsMerged points msf) (ysMerged points msf)
          (min (spacingMean (xsMerged points msf)) (spacingMean (ysMerged points msf)) * pef) } := by
  rw [analyze, if_neg h4]
  simp only [if_neg (by push_neg; exact ⟨by omega, by omega⟩ : ¬ ((xsMerged points msf).length < 2 ∨ (ysMerged points msf).length < 2))]

/-- On the non-degenerate path the recomputed count equals the merged count:
the `spacingMean` of a sorted run telescopes to `(max - min)/(n-1)`. -/
theorem analyze_counts (points : List (ℚ × ℚ)) (tol pef msf : ℚ)
    (h4 : ¬ points.length < 4)
    (hx : ¬ (xsMerged points msf).length < 2) (hy : ¬ (ysMerged points msf).length < 2) :
    (analyze points tol pef msf).Nx = ((xsMerged points msf).length : ℤ) ∧
    (analyze points tol pef msf).Ny = ((ysMerged points msf).length : ℤ) := by
  rw [analyze_main points tol pef msf h4 hx hy]
  have hxdef : xsMerged points msf =
      mergeClose msf (xsSorted points) (estimateMeanStep (xsSorted points)) := rfl
  have hydef : ysMerged points msf =
      mergeClose msf (ysSorted points) (estimateMeanStep (ysSorted points)) := rfl
  have hx2 : 2 ≤ (xsMerged points msf).length := by omega
  have hy2 : 2 ≤ (ysMerged points msf).length := by omega
  constructor
  · show roundQ _ + 1 = _
    have hsort : (xsMerged points msf).Sorted (· ≤ ·) := by
      rw [hxdef]; exact mergeClose_sorted _ _ _ (xsSorted_sorted points)
    have hmm : listMin (xsMerged points msf) < listMax (xsMerged points msf) := by
      rw [hxdef]
      exact merged_min_lt_max _ _ (xsSorted_sorted points) (by rw [← hxdef]; omega)
    match hv : xsMerged points msf, hx2 with
    | a :: t, hx2 =>
      rw [hv] at hsort hmm
      exact reconcile_roundQ _ _ _ _ hmm hx2 (spacingMean_minmax a t hsort)
  · show roundQ _ + 1 = _
    have hsort : (ysMerged points msf).Sorted (· ≤ ·) := by
      rw [hydef]; exact mergeClose_sorted _ _ _ (ysSorted_sorted points)
    have hmm : listMin (ysMerged points msf) < listMax (ysMerged points msf) := by
      rw [hydef]
      exact merged_min_lt_max _ _ (ysSorted_sorted points) (by rw [← hydef]; omega)
    match hv : ysMerged points msf, hy2 with
    | a :: t, hy2 =>
      rw [hv] at hsort hmm
      exact reconcile_roundQ _ _ _ _ hmm hy2 (spacingMean_minmax a t hsort)

theorem countMissing_le (points : List (ℚ × ℚ)) (xs ys : List ℚ) (eps : ℚ) :
    countMissing points xs ys eps ≤ xs.length * ys.length := by
  rw [countMissing]
  calc (xs.map fun x => (ys.filter fun y => !foundNear points x y eps).length).sum
      ≤ (xs.map fun x => (ys.filter fun y => !foundNear points x y eps).length).length
          • ys.length := by
        refine List.sum_le_card_nsmul _ _ ?_
        intro x hx
        rcases List.mem_map.1 hx with ⟨a, _, rfl⟩
        exact List.length_filter_le _ _
    _ = xs.length * ys.length := by rw [List.length_map, smul_eq_mul]

end GridFinder

namespace GridFinder

/-! ### Claim C3 -/

/-- C3: for every input and every choice of the three tolerance parameters,
`analyze` returns `0 ≤ missingPoints ≤ Nx * Ny`, where `Nx` and `Ny` are the
counts in the returned result (recomputed from the extents and mean steps). -/
theorem C3_missingPoints_bounds (points : List (ℚ × ℚ)) (tol pef msf : ℚ) :
    0 ≤ (analyze points tol pef msf).missingPoints ∧
    ((analyze points tol pef msf).missingPoints : ℤ) ≤
      (analyze points tol pef msf).Nx * (analyze points tol pef msf).Ny := by
  refine ⟨Nat.zero_le _, ?_⟩
  by_cases h4 : points.length < 4
  · rw [analyze_lt4 points tol pef msf h4]
    norm_num
  · by_cases hd : (xsMerged points msf).length < 2 ∨ (ysMerged points msf).length < 2
    · rw [analyze_degen points tol pef msf h4 hd]
      simp only []
      show ((0 : ℕ) : ℤ) ≤ ((xsMerged points msf).length : ℤ) * ((ysMerged points msf).length : ℤ)
      positivity
    · push_neg at hd
      have hcounts := analyze_counts points tol pef msf h4 (by omega) (by omega)
      rw [hcounts.1, hcounts.2, analyze_main points tol pef msf h4 (by omega) (by omega)]
      have hle := countMissing_le points (xsMerged points msf) (ysMerged points msf)
        (min (spacingMean (xsMerged points msf)) (spacingMean (ysMerged points msf)) * pef)
      exact_mod_cast hle

end GridFinder

namespace GridFinder

/-! ### Concrete evaluations on the 2×2 unit lattice -/

theorem xsSorted_exGrid22 : xsSorted exGrid22 = [0, 0, 1, 1] := by
  norm_num [exGrid22, xsSorted, sortQ, List.insertionSort, List.orderedInsert]

theorem ysSorted_exGrid22 : ysSorted exGrid22 = [0, 0, 1, 1] := by
  norm_num [exGrid22, ysSorted, sortQ, List.insertionSort, List.orderedInsert]

theorem est_0011 : estimateMeanStep [0, 0, 1, 1] = 1/3 := by
  norm_num [estimateMeanStep, diffs]

theorem abs_third : |(1 : ℚ)/3| = 1/3 := by
  rw [abs_of_nonneg]
  norm_num

theorem xsMerged_exGrid22 : xsMerged exGrid22 (1/10) = [0, 1] := by
  rw [xsMerged, xsSorted_exGrid22, est_0011, mergeClose_eq_cons, abs_third]
  norm_num [mergeAux]

theorem ysMerged_exGrid22 : ysMerged exGrid22 (1/10) = [0, 1] := by
  rw [ysMerged, ysSorted_exGrid22, est_0011, mergeClose_eq_cons, abs_third]
  norm_num [mergeAux]

theorem xsMerged_exGrid22_neg : xsMerged exGrid22 (-1) = [0, 0, 0, 1, 1] := by
  rw [xsMerged, xsSorted_exGrid22, est_0011, mergeClose_eq_cons, abs_third]
  norm_num [mergeAux]

theorem analyze_exGrid22 : analyze exGrid22 (1/20) (1/5) (1/10) =
    { regularX := true, regularY := true, dx := 1, dy := 1, Nx := 2, Ny := 2,
      xMin := 0, xMax := 1, yMin := 0, yMax := 1, missingPoints := 0 } := by
  rw [analyze_main exGrid22 (1/20) (1/5) (1/10) (by norm_num [exGrid22])
    (by rw [xsMerged_exGrid22]; norm_num) (by rw [ysMerged_exGrid22]; norm_num),
    xsMerged_exGrid22, ysMerged_exGrid22]
  norm_num [spacingMean, spacingSpread, diffs, listMin, listMax, roundQ, countMissing,
    foundNear, exGrid22, Result.mk.injEq]

/-! ### Claim C10 -/

theorem mergeClose_invariants (v : List ℚ) (msf : ℚ) (hs : v.Sorted (· ≤ ·)) (hmsf : 0 ≤ msf) :
    (mergeClose msf v (estimateMeanStep v)).Sorted (· < ·) ∧
    (mergeClose msf v (estimateMeanStep v)).Chain'
      (fun a b => msf * |estimateMeanStep v| < b - a) := by
  refine ⟨mergeClose_sorted_lt msf v _ hs (mul_nonneg (abs_nonneg _) hmsf), ?_⟩
  match v with
  | [] => exact List.chain'_nil
  | v0 :: t =>
    exact (mergeClose_chain msf v0 t _ hs).imp (fun a b h => by rwa [mul_comm] at h)

theorem merged_mean_pos (v : List ℚ) (msf : ℚ) (hs : v.Sorted (· ≤ ·))
    (h2 : 2 ≤ (mergeClose msf v (estimateMeanStep v)).length) :
    0 < spacingMean (mergeClose msf v (estimateMeanStep v)) := by
  have hmm := merged_min_lt_max v msf hs h2
  have hsort := mergeClose_sorted msf v (estimateMeanStep v) hs
  match hm : mergeClose msf v (estimateMeanStep v), h2 with
  | a :: t, h2 =>
    rw [hm] at hmm hsort
    rw [spacingMean_minmax a t hsort]
    apply div_pos (by linarith)
    have : (2 : ℚ) ≤ ((a :: t).length : ℚ) := by exact_mod_cast h2
    linarith

/-- C10 (amended: `mergeStepFraction ≥ 0`; the default 0.10 qualifies): each
merged axis sequence is strictly increasing and any two consecutive kept values
differ by more than `mergeStepFraction * |pre-merge mean step|`; consequently,
whenever both degeneracy checks pass, the mean steps `dx` and `dy` are strictly
positive, so the regularity divisions are well-defined, and the presence epsilon
`min(dx,dy) * presenceEpsilonFraction` is positive whenever
`presenceEpsilonFraction` is. -/
theorem C10_merge_invariants (points : List (ℚ × ℚ)) (tol pef msf : ℚ) (hmsf : 0 ≤ msf) :
    (xsMerged points msf).Sorted (· < ·) ∧ (ysMerged points msf).Sorted (· < ·) ∧
    (xsMerged points msf).Chain'
      (fun a b => msf * |estimateMeanStep (xsSorted points)| < b - a) ∧
    (ysMerged points msf).Chain'
      (fun a b => msf * |estimateMeanStep (ysSorted points)| < b - a) ∧
    (4 ≤ points.length → 2 ≤ (xsMerged points msf).length →
      2 ≤ (ysMerged points msf).length →
      0 < (analyze points tol pef msf).dx ∧ 0 < (analyze points tol pef msf).dy ∧
      (0 < pef → 0 < min (analyze points tol pef msf).dx (analyze points tol pef msf).dy * pef)) := by
  obtain ⟨hxlt, hxch⟩ := mergeClose_invariants (xsSorted points) msf (xsSorted_sorted points) hmsf
  obtain ⟨hylt, hych⟩ := mergeClose_invariants (ysSorted points) msf (ysSorted_sorted points) hmsf
  refine ⟨hxlt, hylt, hxch, hych, ?_⟩
  intro h4 hx2 hy2
  rw [analyze_main points tol pef msf (by omega) (by omega) (by omega)]
  have hdx : 0 < spacingMean (xsMerged points msf) :=
    merged_mean_pos (xsSorted points) msf (xsSorted_sorted points) hx2
  have hdy : 0 < spacingMean (ysMerged points msf) :=
    merged_mean_pos (ysSorted points) msf (ysSorted_sorted points) hy2
  exact ⟨hdx, hdy, fun hpef => mul_pos (lt_min hdx hdy) hpef⟩

/-- C10 counterexample: with `mergeStepFraction = -1` (a "parameter choice" the
claim quantifies over) on a perfect 2×2 lattice, the merged X sequence is
`[0, 0, 0, 1, 1]`, which is not strictly increasing: the merge threshold
`|step| * mergeStepFraction` is negative, so every value is kept. -/
theorem C10_counterexample : ¬ (xsMerged exGrid22 (-1)).Sorted (· < ·) := by
  rw [xsMerged_exGrid22_neg]
  intro h
  exact absurd (List.rel_of_sorted_cons h 0 (List.mem_cons_self _ _)) (lt_irrefl 0)

/-- Witness for C10 at the 2×2 unit lattice with the default parameters. -/
theorem C10_merge_invariants_witness :
    (0 : ℚ) ≤ 1/10 ∧ (xsMerged exGrid22 (1/10)).Sorted (· < ·) :=
  ⟨by norm_num, (C10_merge_invariants exGrid22 (1/20) (1/5) (1/10) (by norm_num)).1⟩

end GridFinder

namespace GridFinder

/-! ### Claim C2 -/

/-- C2 (amended): fewer than 4 samples gives the fully default/zeroed result.
When at least 4 samples are supplied but after merging either axis has fewer
than 2 distinct values, the result has `regularX = regularY = false`,
`missingPoints = 0`, zero steps and extents — but `Nx` and `Ny` carry the raw
merged counts (written at lines 144-145 of `GridFinder.h`), which need not be
zero. -/
theorem C2_degenerate_result (points : List (ℚ × ℚ)) (tol pef msf : ℚ) :
    (points.length < 4 → analyze points tol pef msf =
      { regularX := false, regularY := false, dx := 0, dy := 0, Nx := 0, Ny := 0,
        xMin := 0, xMax := 0, yMin := 0, yMax := 0, missingPoints := 0 }) ∧
    (4 ≤ points.length →
      ((xsMerged points msf).length < 2 ∨ (ysMerged points msf).length < 2) →
      analyze points tol pef msf =
      { regularX := false, regularY := false, dx := 0, dy := 0,
        Nx := ((xsMerged points msf).length : ℤ), Ny := ((ysMerged points msf).length : ℤ),
        xMin := 0, xMax := 0, yMin := 0, yMax := 0, missingPoints := 0 }) :=
  ⟨fun h => analyze_lt4 points tol pef msf h,
   fun h4 hd => analyze_degen points tol pef msf (by omega) hd⟩

/-- Witness for C2 at a single-sample input. -/
theorem C2_degenerate_result_witness :
    analyze [((5 : ℚ), (7 : ℚ))] (1/20) (1/5) (1/10) =
      { regularX := false, regularY := false, dx := 0, dy := 0, Nx := 0, Ny := 0,
        xMin := 0, xMax := 0, yMin := 0, yMax := 0, missingPoints := 0 } :=
  (C2_degenerate_result [((5 : ℚ), (7 : ℚ))] (1/20) (1/5) (1/10)).1 (by norm_num)

/-! ### Concrete evaluation on 4 samples sharing one X value -/

theorem estimateMeanStep_replicate (n : ℕ) (c : ℚ) :
    estimateMeanStep (List.replicate n c) = 0 := by
  have hdiffs : ∀ m : ℕ, diffs (List.replicate m c) = List.replicate (m - 1) 0 := by
    intro m
    induction m with
    | zero => rfl
    | succ k ih =>
      cases k with
      | zero => rfl
      | succ j =>
        simp only [List.replicate_succ] at *
        rw [show diffs (c :: c :: List.replicate j c) =
          (c - c) :: diffs (c :: List.replicate j c) from rfl, ih, sub_self]
        simp [List.replicate_succ]
  rw [estimateMeanStep]
  by_cases h : (List.replicate n c).length < 2
  · rw [if_pos h]
  · rw [if_neg h, hdiffs n]
    simp

theorem mergeClose_replicate (msf c : ℚ) (n : ℕ) (hn : 1 ≤ n) :
    mergeClose msf (List.replicate n c) 0 = [c] := by
  obtain ⟨m, rfl⟩ : ∃ m, n = m + 1 := ⟨n - 1, by omega⟩
  rw [List.replicate_succ, mergeClose_eq_cons, abs_zero, zero_mul]
  have h := mergeAux_skip 0 le_rfl c (m + 1) []
  rw [List.append_nil] at h
  rw [show (c :: List.replicate m c) = List.replicate (m + 1) c from
    (List.replicate_succ c m).symm, h]
  rfl

/-! ### Claim C6 -/

/-- C6: any input of at least 4 samples whose X coordinates are all identical
yields `regularX = false` (for every parameter choice): the constant axis gives
a zero pre-merge mean step, the merge collapses the axis to a single value, and
the degeneracy check returns early before any division by the zero step. -/
theorem C6_constant_axis (points : List (ℚ × ℚ)) (tol pef msf c : ℚ)
    (h4 : 4 ≤ points.length) (hc : ∀ p ∈ points, p.1 = c) :
    (analyze points tol pef msf).regularX = false := by
  have hmap : points.map Prod.fst = List.replicate points.length c := by
    have h := List.eq_replicate_of_mem (l := points.map Prod.fst) (a := c) ?_
    · rwa [List.length_map] at h
    · intro b hb
      rcases List.mem_map.1 hb with ⟨p, hp, rfl⟩
      exact hc p hp
  have hsorted : xsSorted points = List.replicate points.length c := by
    rw [xsSorted, sortQ, hmap]
    exact List.Sorted.insertionSort_eq (List.pairwise_replicate.mpr (Or.inr le_rfl))
  have hmerged : xsMerged points msf = [c] := by
    rw [xsMerged, hsorted, estimateMeanStep_replicate]
    exact mergeClose_replicate msf c points.length (by omega)
  rw [analyze_degen points tol pef msf (by omega) (Or.inl (by rw [hmerged]; norm_num))]

end GridFinder

namespace GridFinder

theorem xsSorted_exDegX : xsSorted exDegX = [0, 0, 0, 0] := by
  norm_num [exDegX, xsSorted, sortQ, List.insertionSort, List.orderedInsert]

theorem ysSorted_exDegX : ysSorted exDegX = [0, 1, 2, 3] := by
  norm_num [exDegX, ysSorted, sortQ, List.insertionSort, List.orderedInsert]

theorem xsMerged_exDegX : xsMerged exDegX (1/10) = [0] := by
  rw [xsMerged, xsSorted_exDegX]
  have h1 : estimateMeanStep [0, 0, 0, 0] = 0 := by norm_num [estimateMeanStep, diffs]
  rw [h1, mergeClose_eq_cons, abs_zero, zero_mul]
  norm_num [mergeAux]

theorem ysMerged_exDegX : ysMerged exDegX (1/10) = [0, 1, 2, 3] := by
  rw [ysMerged, ysSorted_exDegX]
  have h1 : estimateMeanStep [0, 1, 2, 3] = 1 := by norm_num [estimateMeanStep, diffs]
  have h2 : |(1 : ℚ)| * (1/10) = 1/10 := by rw [abs_one, one_mul]
  rw [h1, mergeClose_eq_cons, h2]
  norm_num [mergeAux]

/-- C2 counterexample: `exDegX` has 4 samples, so it passes the sample-count
guard, yet its X axis merges to a single value; the returned result carries
`Nx = 1`, `Ny = 4` — not the zeroed counts the claim requires. -/
theorem C2_counterexample :
    (analyze exDegX (1/20) (1/5) (1/10)).Nx = 1 ∧
    (analyze exDegX (1/20) (1/5) (1/10)).Ny = 4 ∧
    (analyze exDegX (1/20) (1/5) (1/10)).Ny ≠ 0 := by
  rw [analyze_degen exDegX (1/20) (1/5) (1/10) (by norm_num [exDegX])
    (Or.inl (by rw [xsMerged_exDegX]; norm_num)), xsMerged_exDegX, ysMerged_exDegX]
  norm_num

/-- Witness for C6 at `exDegX` (4 samples, all X equal to 0). -/
theorem C6_constant_axis_witness : (analyze exDegX (1/20) (1/5) (1/10)).regularX = false :=
  C6_constant_axis exDegX (1/20) (1/5) (1/10) 0 (by norm_num [exDegX]) (by
    intro p hp
    rcases (by simpa [exDegX] using hp :
      p = ((0 : ℚ), (0 : ℚ)) ∨ p = (0, 1) ∨ p = (0, 2) ∨ p = (0, 3)) with rfl | rfl | rfl | rfl <;>
      rfl)

/-! ### Claim C4 -/

theorem specMeanGap_eq (v : List ℚ) : specMeanGap v = spacingMean v := by
  rw [specMeanGap, spacingMean, diffs_eq_gapList]

theorem specGapSpread_eq (v : List ℚ) : specGapSpread v = spacingSpread v := by
  rw [specGapSpread, spacingSpread, diffs_eq_gapList, specMeanGap_eq]

/-- C4: whenever both degeneracy checks pass, `regularX` is set if and only if
`spreadX / dx < toleranceFraction`, where `dx` is the mean of consecutive gaps
of the merged sorted X values and `spreadX` is the mean absolute deviation of
those gaps from `dx`; symmetrically for `regularY`. -/
theorem C4_regular_iff (points : List (ℚ × ℚ)) (tol pef msf : ℚ)
    (h4 : 4 ≤ points.length) (hx : 2 ≤ (xsMerged points msf).length)
    (hy : 2 ≤ (ysMerged points msf).length) :
    ((analyze points tol pef msf).regularX = true ↔
      specGapSpread (xsMerged points msf) / specMeanGap (xsMerged points msf) < tol) ∧
    ((analyze points tol pef msf).regularY = true ↔
      specGapSpread (ysMerged points msf) / specMeanGap (ysMerged points msf) < tol) := by
  rw [analyze_main points tol pef msf (by omega) (by omega) (by omega)]
  constructor
  · show decide _ = true ↔ _
    rw [decide_eq_true_eq, specMeanGap_eq, specGapSpread_eq]
  · show decide _ = true ↔ _
    rw [decide_eq_true_eq, specMeanGap_eq, specGapSpread_eq]

/-- Witness for C4 at the 2×2 unit lattice with default parameters. -/
theorem C4_regular_iff_witness :
    (analyze exGrid22 (1/20) (1/5) (1/10)).regularX = true ↔
      specGapSpread (xsMerged exGrid22 (1/10)) / specMeanGap (xsMerged exGrid22 (1/10)) < 1/20 :=
  (C4_regular_iff exGrid22 (1/20) (1/5) (1/10) (by norm_num [exGrid22])
    (by rw [xsMerged_exGrid22]; norm_num) (by rw [ysMerged_exGrid22]; norm_num)).1

/-! ### Claim C5 -/

theorem foundNear_iff (points : List (ℚ × ℚ)) (x y eps : ℚ) :
    foundNear points x y eps = true ↔
      ∃ p ∈ points, |p.1 - x| < eps ∧ |p.2 - y| < eps := by
  rw [foundNear, List.any_eq_true]
  simp only [Bool.and_eq_true, decide_eq_true_eq]

theorem not_foundNear_eq (points : List (ℚ × ℚ)) (x y eps : ℚ) :
    (!foundNear points x y eps) =
      decide (¬ ∃ p ∈ points, |p.1 - x| < eps ∧ |p.2 - y| < eps) := by
  cases hb : foundNear points x y eps with
  | false =>
    have hP : ¬ ∃ p ∈ points, |p.1 - x| < eps ∧ |p.2 - y| < eps := by
      intro hex
      have h := (foundNear_iff points x y eps).mpr hex
      rw [hb] at h
      cases h
    simp [hP]
  | true =>
    have hP := (foundNear_iff points x y eps).mp hb
    simp [hP]

theorem countMissing_eq_spec (points : List (ℚ × ℚ)) (xs ys : List ℚ) (eps : ℚ) :
    countMissing points xs ys eps = specMissing points xs ys eps := by
  rw [countMissing, specMissing, gridPairs]
  induction xs with
  | nil => rfl
  | cons x xs ih =>
    rw [List.flatMap_cons, List.filter_append, List.length_append, List.map_cons,
      List.sum_cons, ih]
    congr 1
    rw [List.filter_map, List.length_map]
    apply congrArg
    apply List.filter_congr
    intro y hy
    show (!foundNear points x y eps) = _
    rw [not_foundNear_eq]
    rfl

end GridFinder

namespace GridFinder

/-- C5: whenever both degeneracy checks pass, `missingPoints` equals the number
of merged-X/merged-Y combinations for which no sample of the full original
input is within `eps = min(dx, dy) * presenceEpsilonFraction` of both
coordinates (independent per-axis proximity, not Euclidean distance). -/
theorem C5_missing_eq_spec (points : List (ℚ × ℚ)) (tol pef msf : ℚ)
    (h4 : 4 ≤ points.length) (hx : 2 ≤ (xsMerged points msf).length)
    (hy : 2 ≤ (ysMerged points msf).length) :
    (analyze points tol pef msf).missingPoints =
      specMissing points (xsMerged points msf) (ysMerged points msf)
        (min (analyze points tol pef msf).dx (analyze points tol pef msf).dy * pef) := by
  rw [analyze_main points tol pef msf (by omega) (by omega) (by omega)]
  exact countMissing_eq_spec points (xsMerged points msf) (ysMerged points msf) _

/-- Witness for C5 at the 2×2 unit lattice with default parameters. -/
theorem C5_missing_eq_spec_witness :
    (analyze exGrid22 (1/20) (1/5) (1/10)).missingPoints =
      specMissing exGrid22 (xsMerged exGrid22 (1/10)) (ysMerged exGrid22 (1/10))
        (min (analyze exGrid22 (1/20) (1/5) (1/10)).dx
          (analyze exGrid22 (1/20) (1/5) (1/10)).dy * (1/5)) :=
  C5_missing_eq_spec exGrid22 (1/20) (1/5) (1/10) (by norm_num [exGrid22])
    (by rw [xsMerged_exGrid22]; norm_num) (by rw [ysMerged_exGrid22]; norm_num)

/-! ### Claim C8 -/

/-- C8: whenever both degeneracy checks pass, the returned extents are the
minimum and maximum of the merged axis sequences (characterised as members
that bound every merged value), and the returned counts satisfy
`Nx = round((xMax - xMin)/dx) + 1` and `Ny = round((yMax - yMin)/dy) + 1`
computed from those extents and the merged-axis mean steps. -/
theorem C8_extents_and_counts (points : List (ℚ × ℚ)) (tol pef msf : ℚ)
    (h4 : 4 ≤ points.length) (hx : 2 ≤ (xsMerged points msf).length)
    (hy : 2 ≤ (ysMerged points msf).length) :
    ((analyze points tol pef msf).xMin ∈ xsMerged points msf ∧
      ∀ x ∈ xsMerged points msf, (analyze points tol pef msf).xMin ≤ x) ∧
    ((analyze points tol pef msf).xMax ∈ xsMerged points msf ∧
      ∀ x ∈ xsMerged points msf, x ≤ (analyze points tol pef msf).xMax) ∧
    ((analyze points tol pef msf).yMin ∈ ysMerged points msf ∧
      ∀ y ∈ ysMerged points msf, (analyze points tol pef msf).yMin ≤ y) ∧
    ((analyze points tol pef msf).yMax ∈ ysMerged points msf ∧
      ∀ y ∈ ysMerged points msf, y ≤ (analyze points tol pef msf).yMax) ∧
    (analyze points tol pef msf).Nx =
      roundQ (((analyze points tol pef msf).xMax - (analyze points tol pef msf).xMin) /
        (analyze points tol pef msf).dx) + 1 ∧
    (analyze points tol pef msf).Ny =
      roundQ (((analyze points tol pef msf).yMax - (analyze points tol pef msf).yMin) /
        (analyze points tol pef msf).dy) + 1 := by
  rw [analyze_main points tol pef msf (by omega) (by omega) (by omega)]
  have hxne : xsMerged points msf ≠ [] := by
    intro h
    rw [h] at hx
    simp at hx
  have hyne : ysMerged points msf ≠ [] := by
    intro h
    rw [h] at hy
    simp at hy
  exact ⟨⟨listMin_mem _ hxne, listMin_le _⟩, ⟨listMax_mem _ hxne, le_listMax _⟩,
    ⟨listMin_mem _ hyne, listMin_le _⟩, ⟨listMax_mem _ hyne, le_listMax _⟩, rfl, rfl⟩

/-- Witness for C8 at the 2×2 unit lattice with default parameters. -/
theorem C8_extents_and_counts_witness :
    (analyze exGrid22 (1/20) (1/5) (1/10)).xMin ∈ xsMerged exGrid22 (1/10) ∧
    (analyze exGrid22 (1/20) (1/5) (1/10)).Nx =
      roundQ (((analyze exGrid22 (1/20) (1/5) (1/10)).xMax -
        (analyze exGrid22 (1/20) (1/5) (1/10)).xMin) /
        (analyze exGrid22 (1/20) (1/5) (1/10)).dx) + 1 := by
  have h := C8_extents_and_counts exGrid22 (1/20) (1/5) (1/10) (by norm_num [exGrid22])
    (by rw [xsMerged_exGrid22]; norm_num) (by rw [ysMerged_exGrid22]; norm_num)
  exact ⟨h.1.1, h.2.2.2.2.1⟩

/-! ### Claim C9 -/

/-- C9: for every sorted axis sequence with at least 2 values the mean of
consecutive gaps telescopes to `(max - min)/(n - 1)` — so the pre-merge step
guess depends only on the extreme values and the count; consequently, over
exact arithmetic, the recomputed counts `round((max - min)/step) + 1` in the
returned result always equal the merged counts: the reconciliation step never
changes them. -/
theorem C9_telescoping_counts :
    (∀ v : List ℚ, v.Sorted (· ≤ ·) → 2 ≤ v.length →
      spacingMean v = (listMax v - listMin v) / ((v.length : ℚ) - 1) ∧
      estimateMeanStep v = (listMax v - listMin v) / ((v.length : ℚ) - 1)) ∧
    (∀ (points : List (ℚ × ℚ)) (tol pef msf : ℚ), 4 ≤ points.length →
      2 ≤ (xsMerged points msf).length → 2 ≤ (ysMerged points msf).length →
      (analyze points tol pef msf).Nx = ((xsMerged points msf).length : ℤ) ∧
      (analyze points tol pef msf).Ny = ((ysMerged points msf).length : ℤ)) := by
  constructor
  · intro v hs h2
    match v, h2 with
    | a :: t, h2 =>
      have hm := spacingMean_minmax a t hs
      exact ⟨hm, by rw [estimateMeanStep_eq_spacingMean _ h2]; exact hm⟩
  · intro points tol pef msf h4 hx hy
    exact analyze_counts points tol pef msf (by omega) (by omega) (by omega)

/-- Witness for C9 on the sequence `[0, 1]` and the 2×2 unit lattice. -/
theorem C9_telescoping_counts_witness :
    spacingMean [0, 1] = (listMax [0, 1] - listMin [0, 1]) /
      ((([0, 1] : List ℚ).length : ℚ) - 1) ∧
    (analyze exGrid22 (1/20) (1/5) (1/10)).Nx = 2 := by
  constructor
  · exact (C9_telescoping_counts.1 [0, 1] (by decide) (by norm_num)).1
  · have h := (C9_telescoping_counts.2 exGrid22 (1/20) (1/5) (1/10) (by norm_num [exGrid22])
      (by rw [xsMerged_exGrid22]; norm_num) (by rw [ysMerged_exGrid22]; norm_num)).1
    rw [xsMerged_exGrid22] at h
    simpa using h

end GridFinder

namespace GridFinder

/-! ### Lattice infrastructure: shapes of the sorted and merged axis lists -/

theorem flatMap_map_eq {α β γ : Type} (l : List α) (g : α → β) (h : β → List γ) :
    (l.map g).flatMap h = l.flatMap fun i => h (g i) := by
  induction l with
  | nil => rfl
  | cons a t ih => rw [List.map_cons, List.flatMap_cons, List.flatMap_cons, ih]

theorem linesGrid_length (X Y : ℕ → ℚ) (Nx Ny : ℕ) :
    (linesGrid X Y Nx Ny).length = Nx * Ny := by
  rw [linesGrid, List.length_flatMap]
  have h1 : (List.map (List.length ∘ fun i => (List.range Ny).map fun j => (X i, Y j))
      (List.range Nx)) = (List.range Nx).map fun _ => Ny := by
    apply List.map_congr_left
    intro a _
    show ((List.range Ny).map _).length = Ny
    rw [List.length_map, List.length_range]
  rw [h1, List.map_const', List.sum_replicate, List.length_range, smul_eq_mul]

theorem blockList_length (f : ℕ → ℚ) (n k : ℕ) : (blockList f n k).length = n * k := by
  rw [blockList, List.length_flatMap]
  have h1 : (List.map (List.length ∘ fun i => List.replicate k (f i)) (List.range n)) =
      (List.range n).map fun _ => k := by
    apply List.map_congr_left
    intro a _
    show (List.replicate k _).length = k
    rw [List.length_replicate]
  rw [h1, List.map_const', List.sum_replicate, List.length_range, smul_eq_mul]

theorem linesGrid_map_fst (X Y : ℕ → ℚ) (Nx Ny : ℕ) :
    (linesGrid X Y Nx Ny).map Prod.fst = blockList X Nx Ny := by
  rw [linesGrid, blockList, List.map_flatMap]
  apply congrArg
  funext i
  rw [List.map_map]
  show (List.range Ny).map (fun _ => X i) = _
  rw [List.map_const', List.length_range]

theorem perm_flatMap_cons (l : List ℚ) (g : ℚ → List ℚ) :
    (l.flatMap fun a => a :: g a).Perm (l ++ l.flatMap g) := by
  induction l with
  | nil => exact List.Perm.refl _
  | cons a t ih =>
    rw [List.flatMap_cons, List.flatMap_cons, List.cons_append]
    refine List.Perm.cons a (List.Perm.trans (ih.append_left (g a)) ?_)
    show (g a ++ (t ++ t.flatMap g)).Perm (t ++ (g a ++ t.flatMap g))
    rw [← List.append_assoc, ← List.append_assoc]
    exact (List.perm_append_comm).append_right _

theorem perm_copies_replicate (m : ℕ) (l : List ℚ) :
    ((List.range m).flatMap fun _ => l).Perm (l.flatMap fun a => List.replicate m a) := by
  induction m with
  | zero =>
    have h : (l.flatMap fun a => List.replicate 0 a) = [] := by
      induction l with
      | nil => rfl
      | cons b t ihl => rw [List.flatMap_cons]; exact ihl
    rw [h]
    exact List.Perm.refl _
  | succ m ih =>
    have hL : ((List.range (m+1)).flatMap fun _ => l) =
        ((List.range m).flatMap fun _ => l) ++ l := by
      rw [List.range_succ, List.flatMap_append, List.flatMap_cons]
      simp
    have hR : (l.flatMap fun a => List.replicate (m+1) a).Perm
        (l ++ l.flatMap fun a => List.replicate m a) := by
      have h1 : (l.flatMap fun a => List.replicate (m+1) a) =
          l.flatMap fun a => a :: List.replicate m a := by
        apply congrArg
        funext a
        rw [List.replicate_succ]
      rw [h1]
      exact perm_flatMap_cons l _
    refine List.Perm.trans ?_ hR.symm
    rw [hL]
    exact (List.perm_append_comm).trans (ih.append_left l)

theorem linesGrid_map_snd_perm (X Y : ℕ → ℚ) (Nx Ny : ℕ) :
    ((linesGrid X Y Nx Ny).map Prod.snd).Perm (blockList Y Ny Nx) := by
  have h1 : (linesGrid X Y Nx Ny).map Prod.snd =
      (List.range Nx).flatMap fun _ => (List.range Ny).map Y := by
    rw [linesGrid, List.map_flatMap]
    apply congrArg
    funext i
    rw [List.map_map]
    rfl
  rw [h1, blockList]
  refine (perm_copies_replicate Nx ((List.range Ny).map Y)).trans ?_
  rw [flatMap_map_eq]

theorem mem_blockList (f : ℕ → ℚ) (n k : ℕ) (x : ℚ) (hx : x ∈ blockList f n k) :
    ∃ i, i < n ∧ x = f i := by
  rw [blockList] at hx
  rcases List.mem_flatMap.1 hx with ⟨i, hi, hxi⟩
  exact ⟨i, List.mem_range.1 hi, (List.eq_of_mem_replicate hxi)⟩

theorem blockList_mem_of (f : ℕ → ℚ) (n k : ℕ) (i : ℕ) (hi : i < n) (hk : 1 ≤ k) :
    f i ∈ blockList f n k := by
  rw [blockList]
  exact List.mem_flatMap.2 ⟨i, List.mem_range.2 hi,
    List.mem_replicate.2 ⟨by omega, rfl⟩⟩

theorem blockList_sorted (f : ℕ → ℚ) (n k : ℕ)
    (hmono : ∀ i j, i ≤ j → j < n → f i ≤ f j) :
    (blockList f n k).Sorted (· ≤ ·) := by
  induction n with
  | zero => exact List.sorted_nil
  | succ m ih =>
    rw [blockList, List.range_succ, List.flatMap_append, List.flatMap_cons,
      List.flatMap_nil, List.append_nil]
    rw [List.Sorted, List.pairwise_append]
    refine ⟨ih (fun i j hij hj => hmono i j hij (by omega)), ?_, ?_⟩
    · exact List.pairwise_replicate.mpr (Or.inr le_rfl)
    · intro a ha b hb
      rcases mem_blockList f m k a ha with ⟨i, hi, rfl⟩
      rw [List.eq_of_mem_replicate hb]
      exact hmono i m (by omega) (by omega)

theorem blockList_listMin (f : ℕ → ℚ) (n k : ℕ) (hn : 1 ≤ n) (hk : 1 ≤ k)
    (hmono : ∀ i j, i ≤ j → j < n → f i ≤ f j) :
    listMin (blockList f n k) = f 0 := by
  apply listMin_eq_of _ _ (blockList_mem_of f n k 0 (by omega) hk)
  intro x hx
  rcases mem_blockList f n k x hx with ⟨i, hi, rfl⟩
  exact hmono 0 i (by omega) hi

theorem blockList_listMax (f : ℕ → ℚ) (n k : ℕ) (hn : 1 ≤ n) (hk : 1 ≤ k)
    (hmono : ∀ i j, i ≤ j → j < n → f i ≤ f j) :
    listMax (blockList f n k) = f (n - 1) := by
  apply listMax_eq_of _ _ (blockList_mem_of f n k (n - 1) (by omega) hk)
  intro x hx
  rcases mem_blockList f n k x hx with ⟨i, hi, rfl⟩
  exact hmono i (n - 1) (by omega) (by omega)

end GridFinder

namespace GridFinder

theorem chain_map_range (P : ℚ → ℚ → Prop) (f : ℕ → ℚ) (n : ℕ)
    (h : ∀ i, i + 1 ≤ n → P (f i) (f (i + 1))) :
    List.Chain P (f 0) ((List.range n).map fun i => f (i + 1)) := by
  induction n generalizing f with
  | zero => exact List.Chain.nil
  | succ m ih =>
    rw [List.range_succ_eq_map, List.map_cons, List.map_map]
    refine List.Chain.cons (h 0 (by omega)) ?_
    have := ih (fun i => f (i + 1)) (fun i hi => h (i + 1) (by omega))
    convert this using 2

theorem mergeAux_blocks (eps : ℚ) (heps : 0 ≤ eps) (k : ℕ) (vals : List ℚ) :
    ∀ last : ℚ, List.Chain (fun a b => eps < b - a) last vals →
      mergeAux eps last (vals.flatMap fun a => List.replicate (k + 1) a) = vals := by
  induction vals with
  | nil => intro last _; rfl
  | cons a vals' ih =>
    intro last hch
    rcases hch with _ | ⟨hpa, hch'⟩
    rw [List.flatMap_cons, List.replicate_succ, List.cons_append, mergeAux,
      if_pos (by rw [abs_of_pos (by linarith)]; exact hpa),
      mergeAux_skip eps heps a k _, ih a hch']

theorem mergeClose_blockList (msf step : ℚ) (hmsf : 0 ≤ |step| * msf)
    (f : ℕ → ℚ) (m k : ℕ)
    (hgap : ∀ i, i + 1 ≤ m → |step| * msf < f (i + 1) - f i) :
    mergeClose msf (blockList f (m + 1) (k + 1)) step = (List.range (m + 1)).map f := by
  have hvals : (((List.range m).map fun i => f (i + 1)).flatMap
      fun a => List.replicate (k + 1) a) =
      (List.range m).flatMap fun i => List.replicate (k + 1) (f (i + 1)) :=
    flatMap_map_eq _ _ _
  have hshape : blockList f (m + 1) (k + 1) =
      f 0 :: (List.replicate k (f 0) ++
        (((List.range m).map fun i => f (i + 1)).flatMap fun a => List.replicate (k + 1) a)) := by
    rw [blockList, List.range_succ_eq_map, List.flatMap_cons, List.replicate_succ,
      List.cons_append, flatMap_map_eq, hvals]
  rw [hshape, mergeClose_eq_cons]
  have h1 : mergeAux (|step| * msf) (f 0)
      (f 0 :: (List.replicate k (f 0) ++
        (((List.range m).map fun i => f (i + 1)).flatMap fun a => List.replicate (k + 1) a))) =
      mergeAux (|step| * msf) (f 0)
        (((List.range m).map fun i => f (i + 1)).flatMap fun a => List.replicate (k + 1) a) := by
    have h2 := mergeAux_skip (|step| * msf) hmsf (f 0) (k + 1)
      (((List.range m).map fun i => f (i + 1)).flatMap fun a => List.replicate (k + 1) a)
    rw [List.replicate_succ, List.cons_append] at h2
    exact h2
  rw [h1, mergeAux_blocks (|step| * msf) hmsf k _ (f 0) (chain_map_range _ f m hgap),
    List.range_succ_eq_map, List.map_cons, List.map_map]
  rfl

theorem diffs_map_range (f : ℕ → ℚ) (n : ℕ) :
    diffs ((List.range (n + 1)).map f) = (List.range n).map fun i => f (i + 1) - f i := by
  induction n generalizing f with
  | zero => rfl
  | succ m ih =>
    have hsh : (List.range (m + 2)).map f =
        f 0 :: (List.range (m + 1)).map fun i => f (i + 1) := by
      rw [List.range_succ_eq_map, List.map_cons, List.map_map]
      rfl
    have hsh2 : (List.range (m + 1)).map (fun i => f (i + 1)) =
        f 1 :: (List.range m).map fun i => f (i + 2) := by
      rw [List.range_succ_eq_map, List.map_cons, List.map_map]
      rfl
    rw [hsh, hsh2, show diffs (f 0 :: f 1 :: (List.range m).map fun i => f (i + 2)) =
      (f 1 - f 0) :: diffs (f 1 :: (List.range m).map fun i => f (i + 2)) from rfl,
      ← hsh2, ih fun i => f (i + 1)]
    rw [List.range_succ_eq_map, List.map_cons, List.map_map]
    rfl

theorem mem_map_range (f : ℕ → ℚ) (n : ℕ) (x : ℚ) (hx : x ∈ (List.range n).map f) :
    ∃ i, i < n ∧ x = f i := by
  rcases List.mem_map.1 hx with ⟨i, hi, rfl⟩
  exact ⟨i, List.mem_range.1 hi, rfl⟩

theorem map_range_mem_of (f : ℕ → ℚ) (n i : ℕ) (hi : i < n) : f i ∈ (List.range n).map f :=
  List.mem_map.2 ⟨i, List.mem_range.2 hi, rfl⟩

theorem listMin_map_range (f : ℕ → ℚ) (n : ℕ) (hn : 1 ≤ n)
    (hmono : ∀ i j, i ≤ j → j < n → f i ≤ f j) :
    listMin ((List.range n).map f) = f 0 := by
  apply listMin_eq_of _ _ (map_range_mem_of f n 0 (by omega))
  intro x hx
  rcases mem_map_range f n x hx with ⟨i, hi, rfl⟩
  exact hmono 0 i (by omega) hi

theorem listMax_map_range (f : ℕ → ℚ) (n : ℕ) (hn : 1 ≤ n)
    (hmono : ∀ i j, i ≤ j → j < n → f i ≤ f j) :
    listMax ((List.range n).map f) = f (n - 1) := by
  apply listMax_eq_of _ _ (map_range_mem_of f n (n - 1) (by omega))
  intro x hx
  rcases mem_map_range f n x hx with ⟨i, hi, rfl⟩
  exact hmono i (n - 1) (by omega) (by omega)

theorem sorted_map_range (f : ℕ → ℚ) (n : ℕ)
    (hmono : ∀ i j, i ≤ j → j < n → f i ≤ f j) :
    ((List.range n).map f).Sorted (· ≤ ·) := by
  rw [List.Sorted, List.pairwise_map]
  refine List.Pairwise.imp_of_mem ?_ (List.pairwise_lt_range n)
  intro i j hi hj hij
  exact hmono i j (by omega) (List.mem_range.1 hj)

end GridFinder

namespace GridFinder

theorem spacingMean_minmax' (v : List ℚ) (hs : v.Sorted (· ≤ ·)) (h2 : 2 ≤ v.length) :
    spacingMean v = (listMax v - listMin v) / ((v.length : ℚ) - 1) := by
  match v, h2 with
  | a :: t, _ => exact spacingMean_minmax a t hs

theorem axis_monotone (n : ℕ) (x0 dx : ℚ) (hdx : 0 < dx) (X : ℕ → ℚ)
    (hX : ∀ i, i < n → |X i - (x0 + i * dx)| ≤ dx / 100) :
    ∀ i j, i ≤ j → j < n → X i ≤ X j := by
  intro i j hij hj
  rcases eq_or_lt_of_le hij with rfl | hlt
  · exact le_refl _
  · have hXi := abs_le.1 (hX i (by omega))
    have hXj := abs_le.1 (hX j hj)
    have hji : (1 : ℚ) ≤ (j : ℚ) - (i : ℚ) := by
      have h1 : (i : ℚ) + 1 ≤ (j : ℚ) := by exact_mod_cast hlt
      linarith
    nlinarith [hXi.1, hXi.2, hXj.1, hXj.2, mul_le_mul_of_nonneg_right hji hdx.le]

theorem axis_gap_lb (n : ℕ) (x0 dx : ℚ) (hdx : 0 < dx) (X : ℕ → ℚ)
    (hX : ∀ i, i < n → |X i - (x0 + i * dx)| ≤ dx / 100) :
    ∀ i, i + 1 < n → 49 * dx / 50 ≤ X (i + 1) - X i := by
  intro i hi
  have hXi := abs_le.1 (hX i (by omega))
  have hXi1 := abs_le.1 (hX (i + 1) hi)
  have hc : ((i + 1 : ℕ) : ℚ) = (i : ℚ) + 1 := by push_cast; ring
  rw [hc] at hXi1
  nlinarith [hXi.1, hXi.2, hXi1.1, hXi1.2]

theorem axis_extreme_bounds (n : ℕ) (x0 dx : ℚ) (hdx : 0 < dx) (X : ℕ → ℚ)
    (hX : ∀ i, i < n → |X i - (x0 + i * dx)| ≤ dx / 100) (hn : 2 ≤ n) :
    |X (n - 1) - X 0 - ((n : ℚ) - 1) * dx| ≤ dx / 50 := by
  have hX0 := abs_le.1 (hX 0 (by omega))
  have hXn := abs_le.1 (hX (n - 1) (by omega))
  have hc : ((n - 1 : ℕ) : ℚ) = (n : ℚ) - 1 := by
    have h1 : 1 ≤ n := by omega
    push_cast [h1]
    ring
  rw [hc] at hXn
  rw [abs_le]
  constructor <;> push_cast at hX0 hXn ⊢ <;> nlinarith [hX0.1, hX0.2, hXn.1, hXn.2]

theorem merged_axis_eq (n k : ℕ) (hn : 2 ≤ n) (hk : 2 ≤ k) (x0 dx : ℚ) (hdx : 0 < dx)
    (X : ℕ → ℚ) (hX : ∀ i, i < n → |X i - (x0 + i * dx)| ≤ dx / 100) :
    mergeClose (1/10) (blockList X n k) (estimateMeanStep (blockList X n k)) =
      (List.range n).map X := by
  have hmono := axis_monotone n x0 dx hdx X hX
  have hlen : (blockList X n k).length = n * k := blockList_length X n k
  have h2 : 2 ≤ (blockList X n k).length := by
    rw [hlen]
    calc 2 ≤ 2 * 2 := by omega
      _ ≤ n * k := Nat.mul_le_mul hn hk
  have hsorted := blockList_sorted X n k hmono
  set s := estimateMeanStep (blockList X n k) with hs_def
  have hest : s = (X (n - 1) - X 0) / (((n * k : ℕ) : ℚ) - 1) := by
    rw [hs_def, estimateMeanStep_eq_spacingMean _ h2, spacingMean_minmax' _ hsorted h2,
      blockList_listMax X n k (by omega) (by omega) hmono,
      blockList_listMin X n k (by omega) (by omega) hmono, hlen]
  -- abbreviations over ℚ
  have hA : (1 : ℚ) ≤ (n : ℚ) - 1 := by
    have : (2 : ℚ) ≤ (n : ℚ) := by exact_mod_cast hn
    linarith
  have hM : 2 * ((n : ℚ) - 1) + 1 ≤ ((n * k : ℕ) : ℚ) - 1 := by
    have hnk : 2 * n ≤ n * k := by
      calc 2 * n = n * 2 := by ring
        _ ≤ n * k := Nat.mul_le_mul_left n hk
    have h1 : ((2 * n : ℕ) : ℚ) ≤ ((n * k : ℕ) : ℚ) := by exact_mod_cast hnk
    push_cast at h1 ⊢
    linarith
  have hMpos : (0 : ℚ) < ((n * k : ℕ) : ℚ) - 1 := by linarith
  have hE := abs_le.1 (axis_extreme_bounds n x0 dx hdx X hX hn)
  have hEpos : 0 < X (n - 1) - X 0 := by
    nlinarith [hE.1, mul_le_mul_of_nonneg_right hA hdx.le]
  have hspos : 0 < s := by
    rw [hest]
    exact div_pos hEpos hMpos
  have habs : |s| = s := abs_of_pos hspos
  have hepslt : |s| * (1/10) < 49 * dx / 50 := by
    rw [habs, hest, div_mul_eq_mul_div, div_lt_iff hMpos]
    nlinarith [hE.1, hE.2, mul_le_mul_of_nonneg_right hA hdx.le]
  obtain ⟨m, rfl⟩ : ∃ m, n = m + 2 := ⟨n - 2, by omega⟩
  obtain ⟨k', rfl⟩ : ∃ k', k = k' + 2 := ⟨k - 2, by omega⟩
  have hgap : ∀ i, i + 1 ≤ m + 1 → |s| * (1/10) < X (i + 1) - X i := by
    intro i hi
    exact lt_of_lt_of_le hepslt (axis_gap_lb (m + 2) x0 dx hdx X hX i (by omega))
  exact mergeClose_blockList (1/10) s (mul_nonneg (abs_nonneg s) (by norm_num)) X
    (m + 1) (k' + 1) hgap

end GridFinder

namespace GridFinder

theorem spacing_regular (m : ℕ) (x0 dx : ℚ) (hdx : 0 < dx) (X : ℕ → ℚ)
    (hX : ∀ i, i < m + 2 → |X i - (x0 + i * dx)| ≤ dx / 100) :
    49 * dx / 50 ≤ spacingMean ((List.range (m + 2)).map X) ∧
    spacingSpread ((List.range (m + 2)).map X) /
      spacingMean ((List.range (m + 2)).map X) < 1/20 := by
  have hmono := axis_monotone (m + 2) x0 dx hdx X hX
  have hsort := sorted_map_range X (m + 2) hmono
  have hlen : ((List.range (m + 2)).map X).length = m + 2 := by
    rw [List.length_map, List.length_range]
  have h2 : 2 ≤ ((List.range (m + 2)).map X).length := by omega
  have hA : (1 : ℚ) ≤ ((m + 2 : ℕ) : ℚ) - 1 := by push_cast; linarith [Nat.cast_nonneg (α := ℚ) m]
  have hApos : (0 : ℚ) < ((m + 2 : ℕ) : ℚ) - 1 := by linarith
  have hmean : spacingMean ((List.range (m + 2)).map X) =
      (X (m + 1) - X 0) / (((m + 2 : ℕ) : ℚ) - 1) := by
    rw [spacingMean_minmax' _ hsort h2, listMax_map_range X (m + 2) (by omega) hmono,
      listMin_map_range X (m + 2) (by omega) hmono, hlen]
    norm_num
  have hE := abs_le.1 (axis_extreme_bounds (m + 2) x0 dx hdx X hX (by omega))
  rw [show (m + 2) - 1 = m + 1 from rfl] at hE
  have hmean_lb : 49 * dx / 50 ≤ spacingMean ((List.range (m + 2)).map X) := by
    rw [hmean, le_div_iff hApos]
    nlinarith [hE.1, mul_le_mul_of_nonneg_right hA hdx.le]
  refine ⟨hmean_lb, ?_⟩
  have hmean_close : |spacingMean ((List.range (m + 2)).map X) - dx| ≤ dx / 50 := by
    rw [hmean]
    set D : ℚ := ((m + 2 : ℕ) : ℚ) - 1 with hD
    have hne : D ≠ 0 := ne_of_gt hApos
    have h1 : (X (m + 1) - X 0) / D - dx = (X (m + 1) - X 0 - D * dx) / D := by
      field_simp
    rw [h1, abs_div, abs_of_pos hApos]
    refine le_trans (div_le_self (abs_nonneg _) hA) ?_
    rw [abs_le]
    exact hE
  have hdiffs : diffs ((List.range (m + 2)).map X) =
      (List.range (m + 1)).map fun i => X (i + 1) - X i := diffs_map_range X (m + 1)
  have hgap_close : ∀ i, i < m + 1 → |(X (i + 1) - X i) - dx| ≤ dx / 50 := by
    intro i hi
    have h1 := abs_le.1 (hX i (by omega))
    have h2 := abs_le.1 (hX (i + 1) (by omega))
    have hc : ((i + 1 : ℕ) : ℚ) = (i : ℚ) + 1 := by push_cast; ring
    rw [hc] at h2
    rw [abs_le]
    constructor <;> nlinarith [h1.1, h1.2, h2.1, h2.2]
  have helem : ∀ t ∈ (diffs ((List.range (m + 2)).map X)).map
      (fun di => |di - spacingMean ((List.range (m + 2)).map X)|), t ≤ dx / 25 := by
    intro t ht
    rcases List.mem_map.1 ht with ⟨d, hd, rfl⟩
    rw [hdiffs] at hd
    rcases mem_map_range _ _ _ hd with ⟨i, hi, rfl⟩
    calc |(X (i + 1) - X i) - spacingMean ((List.range (m + 2)).map X)|
        ≤ |(X (i + 1) - X i) - dx| +
          |dx - spacingMean ((List.range (m + 2)).map X)| := abs_sub_le _ _ _
      _ ≤ dx / 50 + dx / 50 := by
          have ha := hgap_close i hi
          have hb : |dx - spacingMean ((List.range (m + 2)).map X)| =
              |spacingMean ((List.range (m + 2)).map X) - dx| := abs_sub_comm _ _
          rw [hb]
          linarith [hmean_close]
      _ = dx / 25 := by ring
  have hlend : (diffs ((List.range (m + 2)).map X)).length = m + 1 := by
    rw [hdiffs, List.length_map, List.length_range]
  have hsum : ((diffs ((List.range (m + 2)).map X)).map
      (fun di => |di - spacingMean ((List.range (m + 2)).map X)|)).sum ≤
      ((m + 1 : ℕ) : ℚ) * (dx / 25) := by
    have h := List.sum_le_card_nsmul _ _ helem
    rwa [List.length_map, hlend, nsmul_eq_mul] at h
  have hspread : spacingSpread ((List.range (m + 2)).map X) ≤ dx / 25 := by
    rw [spacingSpread, hlend]
    rw [div_le_iff (by positivity : (0 : ℚ) < ((m + 1 : ℕ) : ℚ))]
    calc ((diffs ((List.range (m + 2)).map X)).map
        (fun di => |di - spacingMean ((List.range (m + 2)).map X)|)).sum
        ≤ ((m + 1 : ℕ) : ℚ) * (dx / 25) := hsum
      _ = dx / 25 * ((m + 1 : ℕ) : ℚ) := by ring
  have hmpos : 0 < spacingMean ((List.range (m + 2)).map X) :=
    lt_of_lt_of_le (by positivity) hmean_lb
  rw [div_lt_iff hmpos]
  nlinarith [hspread, hmean_lb]

end GridFinder

namespace GridFinder

/-! ### `analyze` is invariant under permutations of the input -/

theorem foundNear_perm (points points' : List (ℚ × ℚ)) (h : points.Perm points')
    (x y eps : ℚ) : foundNear points x y eps = foundNear points' x y eps := by
  rw [Bool.eq_iff_iff, foundNear_iff, foundNear_iff]
  constructor <;> rintro ⟨p, hp, hb⟩
  · exact ⟨p, h.mem_iff.mp hp, hb⟩
  · exact ⟨p, h.mem_iff.mpr hp, hb⟩

theorem countMissing_perm (points points' : List (ℚ × ℚ)) (h : points.Perm points')
    (xs ys : List ℚ) (eps : ℚ) :
    countMissing points xs ys eps = countMissing points' xs ys eps := by
  rw [countMissing, countMissing]
  apply congrArg
  apply List.map_congr_left
  intro x _
  apply congrArg
  apply List.filter_congr
  intro y _
  rw [foundNear_perm points points' h]

theorem analyze_perm (points points' : List (ℚ × ℚ)) (h : points.Perm points')
    (tol pef msf : ℚ) : analyze points tol pef msf = analyze points' tol pef msf := by
  have hxs : xsSorted points = xsSorted points' :=
    List.eq_of_perm_of_sorted
      ((List.perm_insertionSort _ _).trans
        ((h.map Prod.fst).trans (List.perm_insertionSort _ _).symm))
      (List.sorted_insertionSort _ _) (List.sorted_insertionSort _ _)
  have hys : ysSorted points = ysSorted points' :=
    List.eq_of_perm_of_sorted
      ((List.perm_insertionSort _ _).trans
        ((h.map Prod.snd).trans (List.perm_insertionSort _ _).symm))
      (List.sorted_insertionSort _ _) (List.sorted_insertionSort _ _)
  have hxm : xsMerged points msf = xsMerged points' msf := by
    rw [xsMerged, xsMerged, hxs]
  have hym : ysMerged points msf = ysMerged points' msf := by
    rw [ysMerged, ysMerged, hys]
  rw [analyze, analyze, h.length_eq, hxm, hym]
  simp only [countMissing_perm points points' h]

/-! ### Presence of every lattice intersection -/

theorem mem_linesGrid (X Y : ℕ → ℚ) (Nx Ny : ℕ) (i j : ℕ) (hi : i < Nx) (hj : j < Ny) :
    (X i, Y j) ∈ linesGrid X Y Nx Ny := by
  rw [linesGrid]
  exact List.mem_flatMap.2 ⟨i, List.mem_range.2 hi,
    List.mem_map.2 ⟨j, List.mem_range.2 hj, rfl⟩⟩

theorem countMissing_zero (points : List (ℚ × ℚ)) (xs ys : List ℚ) (eps : ℚ)
    (h : ∀ x ∈ xs, ∀ y ∈ ys, foundNear points x y eps = true) :
    countMissing points xs ys eps = 0 := by
  rw [countMissing]
  apply List.sum_eq_zero
  intro c hc
  rcases List.mem_map.1 hc with ⟨x, hx, rfl⟩
  rw [List.length_eq_zero]
  rw [List.filter_eq_nil_iff]
  intro y hy
  rw [h x hx y hy]
  exact fun hcon => by cases hcon

/-! ### Exact arithmetic progressions -/

theorem diffs_arith (x0 dx : ℚ) (m : ℕ) :
    diffs ((List.range (m + 2)).map fun i : ℕ => x0 + (i : ℚ) * dx) =
      List.replicate (m + 1) dx := by
  rw [diffs_map_range]
  have h1 : ((List.range (m + 1)).map fun i =>
      (x0 + ((i + 1 : ℕ) : ℚ) * dx) - (x0 + (i : ℚ) * dx)) =
      (List.range (m + 1)).map fun _ => dx := by
    apply List.map_congr_left
    intro i _
    push_cast
    ring
  rw [h1, List.map_const', List.length_range]

theorem spacingMean_arith (x0 dx : ℚ) (m : ℕ) :
    spacingMean ((List.range (m + 2)).map fun i : ℕ => x0 + (i : ℚ) * dx) = dx := by
  rw [spacingMean, diffs_arith, List.sum_replicate, List.length_replicate,
    nsmul_eq_mul]
  rw [mul_div_cancel_left₀]
  positivity

theorem spacingSpread_arith (x0 dx : ℚ) (m : ℕ) :
    spacingSpread ((List.range (m + 2)).map fun i : ℕ => x0 + (i : ℚ) * dx) = 0 := by
  rw [spacingSpread, spacingMean_arith, diffs_arith, List.map_replicate,
    sub_self, abs_zero, List.sum_replicate, smul_zero, zero_div]

/-! ### The analysis of a (possibly line-perturbed) full grid -/

theorem linesGrid_pipeline (Nx Ny : ℕ) (x0 y0 dx dy : ℚ) (X Y : ℕ → ℚ)
    (hNx : 2 ≤ Nx) (hNy : 2 ≤ Ny) (hdx : 0 < dx) (hdy : 0 < dy)
    (hX : ∀ i, i < Nx → |X i - (x0 + i * dx)| ≤ dx / 100)
    (hY : ∀ j, j < Ny → |Y j - (y0 + j * dy)| ≤ dy / 100) :
    xsMerged (linesGrid X Y Nx Ny) (1/10) = (List.range Nx).map X ∧
    ysMerged (linesGrid X Y Nx Ny) (1/10) = (List.range Ny).map Y := by
  have hmonoX := axis_monotone Nx x0 dx hdx X hX
  have hmonoY := axis_monotone Ny y0 dy hdy Y hY
  have hxs : xsSorted (linesGrid X Y Nx Ny) = blockList X Nx Ny := by
    rw [xsSorted, sortQ, linesGrid_map_fst]
    exact List.Sorted.insertionSort_eq (blockList_sorted X Nx Ny hmonoX)
  have hys : ysSorted (linesGrid X Y Nx Ny) = blockList Y Ny Nx := by
    rw [ysSorted, sortQ]
    exact List.eq_of_perm_of_sorted
      ((List.perm_insertionSort _ _).trans (linesGrid_map_snd_perm X Y Nx Ny))
      (List.sorted_insertionSort _ _) (blockList_sorted Y Ny Nx hmonoY)
  constructor
  · rw [xsMerged, hxs]
    exact merged_axis_eq Nx Ny hNx hNy x0 dx hdx X hX
  · rw [ysMerged, hys]
    exact merged_axis_eq Ny Nx hNy hNx y0 dy hdy Y hY

theorem analyze_linesGrid_fields (Nx Ny : ℕ) (x0 y0 dx dy : ℚ) (X Y : ℕ → ℚ)
    (hNx : 2 ≤ Nx) (hNy : 2 ≤ Ny) (hdx : 0 < dx) (hdy : 0 < dy)
    (hX : ∀ i, i < Nx → |X i - (x0 + i * dx)| ≤ dx / 100)
    (hY : ∀ j, j < Ny → |Y j - (y0 + j * dy)| ≤ dy / 100) :
    (analyze (linesGrid X Y Nx Ny) (1/20) (1/5) (1/10)).Nx = (Nx : ℤ) ∧
    (analyze (linesGrid X Y Nx Ny) (1/20) (1/5) (1/10)).Ny = (Ny : ℤ) ∧
    (analyze (linesGrid X Y Nx Ny) (1/20) (1/5) (1/10)).regularX = true ∧
    (analyze (linesGrid X Y Nx Ny) (1/20) (1/5) (1/10)).regularY = true := by
  obtain ⟨hxm, hym⟩ := linesGrid_pipeline Nx Ny x0 y0 dx dy X Y hNx hNy hdx hdy hX hY
  have hlen4 : ¬ (linesGrid X Y Nx Ny).length < 4 := by
    rw [linesGrid_length]
    have h := Nat.mul_le_mul hNx hNy
    omega
  have hxlen : (xsMerged (linesGrid X Y Nx Ny) (1/10)).length = Nx := by
    rw [hxm, List.length_map, List.length_range]
  have hylen : (ysMerged (linesGrid X Y Nx Ny) (1/10)).length = Ny := by
    rw [hym, List.length_map, List.length_range]
  have hxlt : ¬ (xsMerged (linesGrid X Y Nx Ny) (1/10)).length < 2 := by omega
  have hylt : ¬ (ysMerged (linesGrid X Y Nx Ny) (1/10)).length < 2 := by omega
  have hcounts := analyze_counts (linesGrid X Y Nx Ny) (1/20) (1/5) (1/10) hlen4 hxlt hylt
  refine ⟨?_, ?_, ?_, ?_⟩
  · rw [hcounts.1, hxlen]
  · rw [hcounts.2, hylen]
  · rw [analyze_main _ _ _ _ hlen4 hxlt hylt]
    show decide _ = true
    rw [hxm]
    obtain ⟨mx, rfl⟩ : ∃ mx, Nx = mx + 2 := ⟨Nx - 2, by omega⟩
    exact decide_eq_true (spacing_regular mx x0 dx hdx X hX).2
  · rw [analyze_main _ _ _ _ hlen4 hxlt hylt]
    show decide _ = true
    rw [hym]
    obtain ⟨my, rfl⟩ : ∃ my, Ny = my + 2 := ⟨Ny - 2, by omega⟩
    exact decide_eq_true (spacing_regular my y0 dy hdy Y hY).2

end GridFinder

namespace GridFinder

/-- C1: for every perfect `Nx × Ny` rectangular lattice input (any ordering:
the input may be any permutation of the lattice sample list; `Nx, Ny ≥ 2`,
constant positive steps, zero noise, one sample at every intersection),
`analyze` with the default parameters returns `regularX = regularY = true`,
recovers `dx` and `dy` exactly, finds no missing points, and returns the true
counts `Nx`, `Ny`. -/
theorem C1_perfect_lattice (Nx Ny : ℕ) (x0 y0 dx dy : ℚ) (points : List (ℚ × ℚ))
    (hNx : 2 ≤ Nx) (hNy : 2 ≤ Ny) (hdx : 0 < dx) (hdy : 0 < dy)
    (hperm : points.Perm (latticePoints Nx Ny x0 y0 dx dy)) :
    (analyze points (1/20) (1/5) (1/10)).regularX = true ∧
    (analyze points (1/20) (1/5) (1/10)).regularY = true ∧
    (analyze points (1/20) (1/5) (1/10)).dx = dx ∧
    (analyze points (1/20) (1/5) (1/10)).dy = dy ∧
    (analyze points (1/20) (1/5) (1/10)).missingPoints = 0 ∧
    (analyze points (1/20) (1/5) (1/10)).Nx = (Nx : ℤ) ∧
    (analyze points (1/20) (1/5) (1/10)).Ny = (Ny : ℤ) := by
  rw [analyze_perm points _ hperm (1/20) (1/5) (1/10)]
  have hlat : latticePoints Nx Ny x0 y0 dx dy =
      linesGrid (fun i : ℕ => x0 + (i : ℚ) * dx) (fun j : ℕ => y0 + (j : ℚ) * dy) Nx Ny := rfl
  rw [hlat]
  set X : ℕ → ℚ := fun i : ℕ => x0 + (i : ℚ) * dx with hXdef
  set Y : ℕ → ℚ := fun j : ℕ => y0 + (j : ℚ) * dy with hYdef
  have hX : ∀ i, i < Nx → |X i - (x0 + i * dx)| ≤ dx / 100 := by
    intro i _
    rw [hXdef]
    show |x0 + (i : ℚ) * dx - (x0 + (i : ℚ) * dx)| ≤ dx / 100
    rw [sub_self, abs_zero]
    positivity
  have hY : ∀ j, j < Ny → |Y j - (y0 + j * dy)| ≤ dy / 100 := by
    intro j _
    rw [hYdef]
    show |y0 + (j : ℚ) * dy - (y0 + (j : ℚ) * dy)| ≤ dy / 100
    rw [sub_self, abs_zero]
    positivity
  obtain ⟨hxm, hym⟩ := linesGrid_pipeline Nx Ny x0 y0 dx dy X Y hNx hNy hdx hdy hX hY
  have hfields := analyze_linesGrid_fields Nx Ny x0 y0 dx dy X Y hNx hNy hdx hdy hX hY
  have hlen4 : ¬ (linesGrid X Y Nx Ny).length < 4 := by
    rw [linesGrid_length]
    have h := Nat.mul_le_mul hNx hNy
    omega
  have hxlt : ¬ (xsMerged (linesGrid X Y Nx Ny) (1/10)).length < 2 := by
    rw [hxm, List.length_map, List.length_range]
    omega
  have hylt : ¬ (ysMerged (linesGrid X Y Nx Ny) (1/10)).length < 2 := by
    rw [hym, List.length_map, List.length_range]
    omega
  have hmainr := analyze_main (linesGrid X Y Nx Ny) (1/20) (1/5) (1/10) hlen4 hxlt hylt
  obtain ⟨mx, rfl⟩ : ∃ mx, Nx = mx + 2 := ⟨Nx - 2, by omega⟩
  obtain ⟨my, rfl⟩ : ∃ my, Ny = my + 2 := ⟨Ny - 2, by omega⟩
  have hdx_eq : (analyze (linesGrid X Y (mx + 2) (my + 2)) (1/20) (1/5) (1/10)).dx = dx := by
    rw [hmainr]
    show spacingMean (xsMerged (linesGrid X Y (mx + 2) (my + 2)) (1/10)) = dx
    rw [hxm, hXdef]
    exact spacingMean_arith x0 dx mx
  have hdy_eq : (analyze (linesGrid X Y (mx + 2) (my + 2)) (1/20) (1/5) (1/10)).dy = dy := by
    rw [hmainr]
    show spacingMean (ysMerged (linesGrid X Y (mx + 2) (my + 2)) (1/10)) = dy
    rw [hym, hYdef]
    exact spacingMean_arith y0 dy my
  refine ⟨hfields.2.2.1, hfields.2.2.2, hdx_eq, hdy_eq, ?_, hfields.1, hfields.2.1⟩
  rw [hmainr]
  show countMissing (linesGrid X Y (mx + 2) (my + 2))
    (xsMerged (linesGrid X Y (mx + 2) (my + 2)) (1/10))
    (ysMerged (linesGrid X Y (mx + 2) (my + 2)) (1/10)) _ = 0
  apply countMissing_zero
  intro x hx y hy
  rw [hxm] at hx
  rw [hym] at hy
  rcases mem_map_range _ _ _ hx with ⟨i, hi, rfl⟩
  rcases mem_map_range _ _ _ hy with ⟨j, hj, rfl⟩
  apply (foundNear_iff _ _ _ _).mpr
  refine ⟨(X i, Y j), mem_linesGrid X Y (mx + 2) (my + 2) i j hi hj, ?_⟩
  have heps : 0 < min (spacingMean (xsMerged (linesGrid X Y (mx + 2) (my + 2)) (1/10)))
      (spacingMean (ysMerged (linesGrid X Y (mx + 2) (my + 2)) (1/10))) * (1/5) := by
    rw [hxm, hym, hXdef, hYdef, spacingMean_arith, spacingMean_arith]
    exact mul_pos (lt_min hdx hdy) (by norm_num)
  constructor
  · show |X i - X i| < _
    rw [sub_self, abs_zero]
    exact heps
  · show |Y j - Y j| < _
    rw [sub_self, abs_zero]
    exact heps

/-- Witness for C1: the 2×2 unit lattice itself. -/
theorem C1_perfect_lattice_witness :
    (analyze (latticePoints 2 2 0 0 1 1) (1/20) (1/5) (1/10)).regularX = true ∧
    (analyze (latticePoints 2 2 0 0 1 1) (1/20) (1/5) (1/10)).missingPoints = 0 ∧
    (analyze (latticePoints 2 2 0 0 1 1) (1/20) (1/5) (1/10)).Nx = 2 := by
  have h := C1_perfect_lattice 2 2 0 0 1 1 (latticePoints 2 2 0 0 1 1)
    (by norm_num) (by norm_num) (by norm_num) (by norm_num) (List.Perm.refl _)
  exact ⟨h.1, h.2.2.2.2.1, h.2.2.2.2.2.1⟩

end GridFinder

namespace GridFinder

/-- C7 (amended): the claim's per-coordinate allowance
`mergeStepFraction * step / 2` is too generous for this code (see the
counterexample); what holds is noise tolerance for perturbations that move each
lattice line uniformly by at most `step/100`: with default parameters, `Nx`,
`Ny`, `regularX` and `regularY` are unchanged from the unperturbed lattice. -/
theorem C7_line_noise (Nx Ny : ℕ) (x0 y0 dx dy : ℚ) (ex ey : ℕ → ℚ)
    (hNx : 2 ≤ Nx) (hNy : 2 ≤ Ny) (hdx : 0 < dx) (hdy : 0 < dy)
    (hex : ∀ i, i < Nx → |ex i| ≤ dx / 100) (hey : ∀ j, j < Ny → |ey j| ≤ dy / 100) :
    (analyze (linesGrid (fun i : ℕ => x0 + (i : ℚ) * dx + ex i)
        (fun j : ℕ => y0 + (j : ℚ) * dy + ey j) Nx Ny) (1/20) (1/5) (1/10)).Nx =
      (analyze (latticePoints Nx Ny x0 y0 dx dy) (1/20) (1/5) (1/10)).Nx ∧
    (analyze (linesGrid (fun i : ℕ => x0 + (i : ℚ) * dx + ex i)
        (fun j : ℕ => y0 + (j : ℚ) * dy + ey j) Nx Ny) (1/20) (1/5) (1/10)).Ny =
      (analyze (latticePoints Nx Ny x0 y0 dx dy) (1/20) (1/5) (1/10)).Ny ∧
    (analyze (linesGrid (fun i : ℕ => x0 + (i : ℚ) * dx + ex i)
        (fun j : ℕ => y0 + (j : ℚ) * dy + ey j) Nx Ny) (1/20) (1/5) (1/10)).regularX =
      (analyze (latticePoints Nx Ny x0 y0 dx dy) (1/20) (1/5) (1/10)).regularX ∧
    (analyze (linesGrid (fun i : ℕ => x0 + (i : ℚ) * dx + ex i)
        (fun j : ℕ => y0 + (j : ℚ) * dy + ey j) Nx Ny) (1/20) (1/5) (1/10)).regularY =
      (analyze (latticePoints Nx Ny x0 y0 dx dy) (1/20) (1/5) (1/10)).regularY := by
  have hpert := analyze_linesGrid_fields Nx Ny x0 y0 dx dy
    (fun i : ℕ => x0 + (i : ℚ) * dx + ex i) (fun j : ℕ => y0 + (j : ℚ) * dy + ey j)
    hNx hNy hdx hdy
    (by
      intro i hi
      have h : x0 + (i : ℚ) * dx + ex i - (x0 + (i : ℚ) * dx) = ex i := by ring
      show |x0 + (i : ℚ) * dx + ex i - (x0 + (i : ℚ) * dx)| ≤ dx / 100
      rw [h]
      exact hex i hi)
    (by
      intro j hj
      have h : y0 + (j : ℚ) * dy + ey j - (y0 + (j : ℚ) * dy) = ey j := by ring
      show |y0 + (j : ℚ) * dy + ey j - (y0 + (j : ℚ) * dy)| ≤ dy / 100
      rw [h]
      exact hey j hj)
  have hbase := analyze_linesGrid_fields Nx Ny x0 y0 dx dy
    (fun i : ℕ => x0 + (i : ℚ) * dx) (fun j : ℕ => y0 + (j : ℚ) * dy)
    hNx hNy hdx hdy
    (by
      intro i hi
      show |x0 + (i : ℚ) * dx - (x0 + (i : ℚ) * dx)| ≤ dx / 100
      rw [sub_self, abs_zero]
      positivity)
    (by
      intro j hj
      show |y0 + (j : ℚ) * dy - (y0 + (j : ℚ) * dy)| ≤ dy / 100
      rw [sub_self, abs_zero]
      positivity)
  have hlat : latticePoints Nx Ny x0 y0 dx dy =
      linesGrid (fun i : ℕ => x0 + (i : ℚ) * dx) (fun j : ℕ => y0 + (j : ℚ) * dy) Nx Ny := rfl
  rw [hlat, hpert.1, hpert.2.1, hpert.2.2.1, hpert.2.2.2,
    hbase.1, hbase.2.1, hbase.2.2.1, hbase.2.2.2]
  exact ⟨rfl, rfl, rfl, rfl⟩

/-- Witness for C7 at the 2×2 unit lattice with zero line perturbations. -/
theorem C7_line_noise_witness :
    (analyze (linesGrid (fun i : ℕ => 0 + (i : ℚ) * 1 + 0)
        (fun j : ℕ => 0 + (j : ℚ) * 1 + 0) 2 2) (1/20) (1/5) (1/10)).Nx =
      (analyze (latticePoints 2 2 0 0 1 1) (1/20) (1/5) (1/10)).Nx :=
  (C7_line_noise 2 2 0 0 1 1 (fun _ => 0) (fun _ => 0) (by norm_num) (by norm_num)
    (by norm_num) (by norm_num)
    (by intro i _; rw [abs_zero]; norm_num)
    (by intro j _; rw [abs_zero]; norm_num)).1

end GridFinder

namespace GridFinder

theorem exBase32_eq : exBase32 = [(0, 0), (0, 1), (1, 0), (1, 1), (2, 0), (2, 1)] := by
  norm_num [exBase32, latticePoints, linesGrid, List.range_succ, List.flatMap_append,
    List.flatMap_cons, List.flatMap_nil]

theorem regX_exBase32 : (analyze exBase32 (1/20) (1/5) (1/10)).regularX = true := by
  have h := analyze_linesGrid_fields 3 2 0 0 1 1
    (fun i : ℕ => 0 + (i : ℚ) * 1) (fun j : ℕ => 0 + (j : ℚ) * 1)
    (by norm_num) (by norm_num) (by norm_num) (by norm_num)
    (by
      intro i _
      show |0 + (i : ℚ) * 1 - (0 + (i : ℚ) * 1)| ≤ 1 / 100
      rw [sub_self, abs_zero]
      norm_num)
    (by
      intro j _
      show |0 + (j : ℚ) * 1 - (0 + (j : ℚ) * 1)| ≤ 1 / 100
      rw [sub_self, abs_zero]
      norm_num)
  exact h.2.2.1

theorem xsSorted_exPert32 : xsSorted exPert32 =
    [-49/1000, -49/1000, 1049/1000, 1049/1000, 1951/1000, 1951/1000] := by
  norm_num [exPert32, xsSorted, sortQ, List.insertionSort, List.orderedInsert]

theorem ysSorted_exPert32 : ysSorted exPert32 = [0, 0, 0, 1, 1, 1] := by
  norm_num [exPert32, ysSorted, sortQ, List.insertionSort, List.orderedInsert]

theorem xsMerged_exPert32 : xsMerged exPert32 (1/10) =
    [-49/1000, 1049/1000, 1951/1000] := by
  rw [xsMerged, xsSorted_exPert32]
  have h1 : estimateMeanStep
      [-49/1000, -49/1000, 1049/1000, 1049/1000, 1951/1000, 1951/1000] = 2/5 := by
    norm_num [estimateMeanStep, diffs]
  have h2 : |(2 : ℚ)/5| * (1/10) = 1/25 := by
    rw [abs_of_nonneg] <;> norm_num
  have h3 : |(549 : ℚ)/500| = 549/500 := by rw [abs_of_nonneg] <;> norm_num
  have h4 : |(451 : ℚ)/500| = 451/500 := by rw [abs_of_nonneg] <;> norm_num
  rw [h1, mergeClose_eq_cons, h2]
  norm_num [mergeAux, h3, h4]

theorem ysMerged_exPert32 : ysMerged exPert32 (1/10) = [0, 1] := by
  rw [ysMerged, ysSorted_exPert32]
  have h1 : estimateMeanStep [0, 0, 0, 1, 1, 1] = 1/5 := by
    norm_num [estimateMeanStep, diffs]
  have h2 : |(1 : ℚ)/5| * (1/10) = 1/50 := by
    rw [abs_of_nonneg] <;> norm_num
  rw [h1, mergeClose_eq_cons, h2]
  norm_num [mergeAux]

theorem regX_exPert32 : (analyze exPert32 (1/20) (1/5) (1/10)).regularX = false := by
  rw [analyze_main exPert32 (1/20) (1/5) (1/10) (by norm_num [exPert32])
    (by rw [xsMerged_exPert32]; norm_num) (by rw [ysMerged_exPert32]; norm_num)]
  show decide _ = false
  rw [xsMerged_exPert32]
  have hmean : spacingMean [-49/1000, 1049/1000, 1951/1000] = 1 := by
    norm_num [spacingMean, diffs]
  have hspread : spacingSpread [-49/1000, 1049/1000, 1951/1000] = 49/500 := by
    rw [spacingSpread, hmean]
    norm_num [diffs]
  rw [hspread, hmean]
  norm_num

/-- C7 counterexample: `exBase32` is a perfect 3×2 lattice with unit steps, and
`exPert32` moves every coordinate by `49/1000`, strictly less than
`mergeStepFraction * step / 2 = 1/20`; yet `regularX` flips from `true` to
`false`, because the merged X gaps `1.098` and `0.902` have spread fraction
`0.098 ≥ 0.05`. -/
theorem C7_counterexample :
    pertWithinHalfMergeTol = true ∧
    (analyze exBase32 (1/20) (1/5) (1/10)).regularX = true ∧
    (analyze exPert32 (1/20) (1/5) (1/10)).regularX = false := by
  refine ⟨?_, regX_exBase32, regX_exPert32⟩
  have h5 : |(49 : ℚ)/1000| = 49/1000 := by rw [abs_of_nonneg] <;> norm_num
  rw [pertWithinHalfMergeTol, exBase32_eq]
  norm_num [exPert32, List.zip_cons_cons, List.all_cons, List.all_nil, h5]

end GridFinder
